import Mathlib

/-!
# Verification of `hashdist.core.run_job`

A shallow embedding, in Lean 4, of the Python module
`src/hashdist/core/run_job.py` (Python 2), together with theorems settling
the frozen claims about it.

Conventions of the embedding:
* Python byte strings are modelled either as Lean `String` (at the
  interpreter level) or as `List Char` (`LStr`, for the character-scanning
  algorithms: variable substitution, line splitting, the `HDIST_VIRTUALS`
  packing).  Only ASCII data is exercised, where the two views agree with
  Python 2 `str`.
* Python exceptions are modelled by the `Err` inductive; each constructor
  records which Python exception class the source raises.
* Filesystem and subprocess effects are abstracted by explicit oracle
  functions (`resolve`, `pexists`, `realpath`, `oracle`) passed in a
  context record; process spawns are recorded in an explicit trace so that
  "no command was run" is observable.
* POSIX platform constants: `os.path.pathsep = ":"`, absolute paths start
  with `/`.
-/

/-- Python byte strings viewed as character lists. -/
abbrev LStr := List Char

/-- Python `pat in s` (substring containment) for `str` operands. -/
def pyContains (pat : LStr) : LStr → Bool
  | [] => pat.isPrefixOf []
  | c :: r => pat.isPrefixOf (c :: r) || pyContains pat r

/-- Python `s.replace(pat, repl)`: left-to-right, non-overlapping
replacement of every occurrence of `pat`.  (For `pat = []` Python inserts
`repl` between all characters; that case is never exercised by the source,
and we leave the string unchanged there.) -/
def pyReplace (pat repl : LStr) : LStr → LStr
  | [] => []
  | c :: rest =>
    if h : pat ≠ [] ∧ pat.isPrefixOf (c :: rest) then
      repl ++ pyReplace pat repl (List.drop pat.length (c :: rest))
    else
      c :: pyReplace pat repl rest
termination_by s => s.length
decreasing_by
  · simp only [List.length_drop, List.length_cons]
    have : pat.length ≠ 0 := by
      intro hlen
      exact h.1 (List.length_eq_zero.mp hlen)
    omega
  · simp

/-- Python `s.startswith(pre)`. -/
def pyStartswith (s pre : String) : Bool := pre.data.isPrefixOf s.data

/-- Python `str.strip()` whitespace characters (Python 2 `string.whitespace`). -/
def isPyWhitespace (c : Char) : Bool :=
  c == ' ' || c == '\t' || c == '\n' || c == '\r' || c == '\x0b' || c == '\x0c'

/-- Python `s.strip()`: remove leading and trailing whitespace. -/
def pystrip (s : String) : String :=
  ⟨(((s.data.dropWhile isPyWhitespace).reverse.dropWhile isPyWhitespace).reverse)⟩

/-- Python `os.path.join(a, b)` on POSIX, for the two-argument uses in the
source (`b` absolute replaces `a`; otherwise they are joined with `/`). -/
def pjoin (a b : String) : String :=
  if b.data.head? = some '/' then b
  else if a = "" then b
  else if a.data.getLast? = some '/' then a ++ b
  else a ++ "/" ++ b

/-- Python `sep.join(items)`. -/
def pyJoin (sep : String) : List String → String
  | [] => ""
  | [x] => x
  | x :: y :: rest => x ++ sep ++ pyJoin sep (y :: rest)

/-- Python `s.split(sep)` for a one-character separator: `n` separators
yield `n+1` pieces. -/
def pySplitChar (sep : Char) : LStr → List LStr
  | [] => [[]]
  | c :: r =>
    match pySplitChar sep r with
    | [] => [[]]
    | p :: ps => if c = sep then [] :: p :: ps else (c :: p) :: ps

/-- The Python exceptions raised by the module.  `invalidJobSpec` is
`InvalidJobSpecError`, a subclass of `ValueError`; `notImplemented` is the
`NotImplementedError` used to reject redirection into the temp dir (the
spec's "RedirectionIntoTempDir"); `procFailed` stands for a
`CalledProcessError`/`OSError` escaping from a child process; `fuelOut` is
an artifact of the fuel-indexed recursion, not a Python error. -/
inductive Err : Type where
  | invalidJobSpec : String → Err
  | valueError : String → Err
  | typeError : String → Err
  | keyError : String → Err
  | notImplemented : String → Err
  | procFailed : String → Err
  | assertionError : Err
  | fuelOut : Err
  deriving Repr, DecidableEq

/-! ## The variable substituter (`substitute`, run_job.py lines 306-319)

Python's `string.Template(x).substitute(env)` scans left to right; at each
`$` it matches, in order, `$$` (escaped), `$NAME`, `$\x7bNAME\x7d`, or the
empty "invalid" alternative which raises
`ValueError('Invalid placeholder in string')`.  `NAME` is `[_a-zA-Z][_a-zA-Z0-9]*`
(the pattern is `[_a-z][_a-z0-9]*` with `re.IGNORECASE`).  A missing name
raises `KeyError`. -/

/-- First character of a Template identifier. -/
def isIdentStart (c : Char) : Bool :=
  c == '_' || ('a' ≤ c && c ≤ 'z') || ('A' ≤ c && c ≤ 'Z')

/-- Subsequent character of a Template identifier. -/
def isIdentChar (c : Char) : Bool :=
  isIdentStart c || ('0' ≤ c && c ≤ '9')

/-- Association-list lookup used to model Python `dict` indexing. -/
def lookupLS (env : List (LStr × LStr)) (k : LStr) : Option LStr :=
  match env with
  | [] => none
  | (k', v) :: rest => if k' = k then some v else lookupLS rest k

theorem length_dropWhile_le' (p : Char → Bool) (l : LStr) :
    (List.dropWhile p l).length ≤ l.length := by
  induction l with
  | nil => simp [List.dropWhile]
  | cons c r ih =>
    simp only [List.dropWhile]
    cases p c <;> simp <;> omega

/-- `string.Template(x).substitute(env)` (the scan described above). -/
def tmplSub (env : List (LStr × LStr)) : LStr → Except Err LStr
  | [] => .ok []
  | '$' :: rest =>
    match rest with
    | '$' :: r =>
      match tmplSub env r with
      | .ok t => .ok ('$' :: t)
      | .error e => .error e
    | '{' :: c :: r =>
      if isIdentStart c then
        if (r.dropWhile isIdentChar).head? = some '}' then
          match lookupLS env (c :: r.takeWhile isIdentChar) with
          | some v =>
            match tmplSub env (r.dropWhile isIdentChar).tail with
            | .ok t => .ok (v ++ t)
            | .error e => .error e
          | none => .error (.keyError ⟨c :: r.takeWhile isIdentChar⟩)
        else .error (.valueError "Invalid placeholder in string")
      else .error (.valueError "Invalid placeholder in string")
    | c :: r =>
      if isIdentStart c then
        match lookupLS env (c :: r.takeWhile isIdentChar) with
        | some v =>
          match tmplSub env (r.dropWhile isIdentChar) with
          | .ok t => .ok (v ++ t)
          | .error e => .error e
        | none => .error (.keyError ⟨c :: r.takeWhile isIdentChar⟩)
      else .error (.valueError "Invalid placeholder in string")
    | [] => .error (.valueError "Invalid placeholder in string")
  | c :: rest =>
    match tmplSub env rest with
    | .ok t => .ok (c :: t)
    | .error e => .error e
termination_by s => s.length
decreasing_by
  all_goals simp_wf
  all_goals try omega
  · have h1 := length_dropWhile_le' isIdentChar r
    have h2 := List.length_tail (r.dropWhile isIdentChar)
    omega
  · have h1 := length_dropWhile_le' isIdentChar r
    omega

/-- `substitute(x, env)` (run_job.py lines 306-319).  Note the source's
escape-processing lines are `x.replace(r'\\\\', r'\\')` — which, `r'...'`
being raw literals, replaces FOUR backslashes by TWO — followed by
`x.replace(r'\$', r'$$')`. -/
def substitute (x : LStr) (env : List (LStr × LStr)) : Except Err LStr :=
  if pyContains ['$', '$'] x then
    .error (.keyError "$$ is not allowed (no variable can be named $)")
  else
    tmplSub env (pyReplace ['\\', '$'] ['$', '$']
      (pyReplace ['\\', '\\', '\\', '\\'] ['\\', '\\'] x))

/-- Syntactic well-formedness of Template placeholders: every `$` in the
string begins `$$`, `$NAME`, or a brace-delimited name. -/
def placeholdersValid : LStr → Bool
  | [] => true
  | '$' :: rest =>
    match rest with
    | '$' :: r => placeholdersValid r
    | '{' :: c :: r =>
      if isIdentStart c then
        if (r.dropWhile isIdentChar).head? = some '}' then
          placeholdersValid (r.dropWhile isIdentChar).tail
        else false
      else false
    | c :: r =>
      if isIdentStart c then placeholdersValid (r.dropWhile isIdentChar)
      else false
    | [] => false
  | _ :: rest => placeholdersValid rest
termination_by s => s.length
decreasing_by
  all_goals simp_wf
  all_goals try omega
  · have h1 := length_dropWhile_le' isIdentChar r
    have h2 := List.length_tail (r.dropWhile isIdentChar)
    omega
  · have h1 := length_dropWhile_le' isIdentChar r
    omega

/-- Every name referenced by a (well-formed) placeholder is bound in `env`;
ill-formed `$` uses are skipped (they are charged to `placeholdersValid`). -/
def namesBound (env : List (LStr × LStr)) : LStr → Bool
  | [] => true
  | '$' :: rest =>
    match rest with
    | '$' :: r => namesBound env r
    | '{' :: c :: r =>
      if isIdentStart c then
        if (r.dropWhile isIdentChar).head? = some '}' then
          (lookupLS env (c :: r.takeWhile isIdentChar)).isSome &&
            namesBound env (r.dropWhile isIdentChar).tail
        else true
      else true
    | c :: r =>
      if isIdentStart c then
        (lookupLS env (c :: r.takeWhile isIdentChar)).isSome &&
          namesBound env (r.dropWhile isIdentChar)
      else true
    | [] => true
  | _ :: rest => namesBound env rest
termination_by s => s.length
decreasing_by
  all_goals simp_wf
  all_goals try omega
  · have h1 := length_dropWhile_le' isIdentChar r
    have h2 := List.length_tail (r.dropWhile isIdentChar)
    omega
  · have h1 := length_dropWhile_le' isIdentChar r
    omega

set_option maxHeartbeats 1000000 in
/-- Characterization of the Template scan: it succeeds iff every placeholder
is well-formed and every referenced name is bound; with well-formed
placeholders an unbound name gives `KeyError`; with all names bound a
malformed placeholder gives `ValueError`. -/
theorem tmpl_master (env : List (LStr × LStr)) (s : LStr) :
    ((placeholdersValid s && namesBound env s) = true → ∃ res, tmplSub env s = Except.ok res)
    ∧ ((∃ res, tmplSub env s = Except.ok res) → (placeholdersValid s && namesBound env s) = true)
    ∧ (placeholdersValid s = true → namesBound env s = false →
        ∃ n, tmplSub env s = Except.error (Err.keyError n))
    ∧ (namesBound env s = true → placeholdersValid s = false →
        tmplSub env s = Except.error (Err.valueError "Invalid placeholder in string")) := by
  induction s using tmplSub.induct env
  all_goals simp_all [tmplSub, placeholdersValid, namesBound]

/-- C2 (amended): `substitute(s, e)` first fails with KeyError (the spec's
UnknownVariable) whenever `s` contains `$$`; otherwise, writing `y` for `s`
after the two escape replacements, it succeeds exactly when every `$` in
`y` begins a well-formed `$NAME`-or-braced placeholder whose `NAME` is
bound in `e`; an unbound `NAME` (with well-formed placeholders) fails with
KeyError/UnknownVariable, while a malformed use of `$` (with all names
bound) fails with `ValueError('Invalid placeholder in string')` instead of
UnknownVariable. -/
theorem c2_substitution_totality_amended (x : LStr) (env : List (LStr × LStr)) (y : LStr)
    (hy : y = pyReplace ['\\', '$'] ['$', '$']
      (pyReplace ['\\', '\\', '\\', '\\'] ['\\', '\\'] x)) :
    (pyContains ['$', '$'] x = true →
      substitute x env = Except.error (Err.keyError "$$ is not allowed (no variable can be named $)"))
    ∧ (pyContains ['$', '$'] x = false →
        (((placeholdersValid y && namesBound env y) = true ↔
            ∃ res, substitute x env = Except.ok res)
        ∧ (placeholdersValid y = true → namesBound env y = false →
            ∃ n, substitute x env = Except.error (Err.keyError n))
        ∧ (namesBound env y = true → placeholdersValid y = false →
            substitute x env = Except.error (Err.valueError "Invalid placeholder in string")))) := by
  subst hy
  constructor
  · intro h
    simp [substitute, h]
  · intro h
    have hm := tmpl_master env (pyReplace ['\\', '$'] ['$', '$']
      (pyReplace ['\\', '\\', '\\', '\\'] ['\\', '\\'] x))
    simp only [substitute, h, Bool.false_eq_true, if_false]
    exact ⟨⟨hm.1, hm.2.1⟩, hm.2.2.1, hm.2.2.2⟩

/-- C2 counterexample: the one-character string `"$"` contains no `$$` and
references no variable, so the claim says `substitute` must succeed (and
that every failure is UnknownVariable); the code instead raises
`ValueError('Invalid placeholder in string')` from `string.Template`. -/
theorem c2_substitution_totality_counterexample :
    pyContains ['$', '$'] ['$'] = false
    ∧ substitute ['$'] [] = Except.error (Err.valueError "Invalid placeholder in string") := by
  constructor
  · decide
  · simp [substitute, pyContains, pyReplace, tmplSub]

/-- C2 witness: the amended theorem applied at `"$$"` (KeyError branch) and
at `"a$X"` with `X` bound (success branch). -/
theorem c2_substitution_totality_amended_witness :
    substitute ['$', '$'] [] =
        Except.error (Err.keyError "$$ is not allowed (no variable can be named $)")
    ∧ ∃ res, substitute ['a', '$', 'X'] [(['X'], ['1'])] = Except.ok res := by
  constructor
  · exact (c2_substitution_totality_amended ['$', '$'] [] _ rfl).1 (by decide)
  · exact ((c2_substitution_totality_amended ['a', '$', 'X'] [(['X'], ['1'])] _ rfl).2
      (by decide)).1.1
      (by simp [pyReplace, placeholdersValid, namesBound, lookupLS, isIdentStart, isIdentChar])

/-- C3: evaluation of the escape rules.  The source line
`x.replace(r'\\\\', r'\\')` uses raw literals, so it replaces FOUR
backslashes by TWO; consequently the two-character input of two
backslashes is returned *unchanged* (first conjunct), contradicting the
module's own docstring rule that a double backslash is an escape for one
backslash (the claim's `substitute("\\\\", e) = "\\"`).  The other two
rules of the claim do hold: backslash-dollar yields a literal dollar and a
lone backslash before another character is preserved. -/
theorem c3_escape_rules_eval :
    substitute ['\\', '\\'] [] = Except.ok ['\\', '\\']
    ∧ substitute ['\\', '\\', '\\', '\\'] [] = Except.ok ['\\', '\\']
    ∧ substitute ['\\', '$'] [] = Except.ok ['$']
    ∧ substitute ['\\', 'a'] [] = Except.ok ['\\', 'a'] := by
  refine ⟨?_, ?_, ?_, ?_⟩ <;> simp [substitute, pyContains, pyReplace, tmplSub]

/-! ## Environments (Python `dict`, value-typed: scope push = copy) -/

/-- Environment: mapping from variable names to string values. -/
abbrev Env := List (String × String)

/-- `env[k]` lookup (first binding wins; bindings are kept unique). -/
def Env.lookupV : Env → String → Option String
  | [], _ => none
  | (k, v) :: rest, key => if k = key then some v else Env.lookupV rest key

/-- `env[k] = v` assignment. -/
def Env.set : Env → String → String → Env
  | [], key, val => [(key, val)]
  | (k, v) :: rest, key, val =>
    if k = key then (k, val) :: rest else (k, v) :: Env.set rest key val

/-- `env.update(adds)`: assign every binding of `adds` in order. -/
def Env.update (e : Env) (adds : List (String × String)) : Env :=
  adds.foldl (fun acc kv => acc.set kv.1 kv.2) e

theorem Env.lookupV_set_same (e : Env) (k v : String) :
    (e.set k v).lookupV k = some v := by
  induction e with
  | nil => simp [Env.set, Env.lookupV]
  | cons kv rest ih =>
    obtain ⟨k', v'⟩ := kv
    by_cases h : k' = k <;> simp [Env.set, Env.lookupV, h, ih]

theorem Env.lookupV_set_ne (e : Env) (k k' v : String) (h : k ≠ k') :
    (e.set k v).lookupV k' = e.lookupV k' := by
  induction e with
  | nil => simp [Env.set, Env.lookupV, h]
  | cons kv rest ih =>
    obtain ⟨k0, v0⟩ := kv
    by_cases h0 : k0 = k
    · subst h0
      simp [Env.set, Env.lookupV, h]
    · simp only [Env.set, h0, if_false]
      by_cases h1 : k0 = k' <;> simp [Env.lookupV, h1, ih]

/-- View an `Env` at the character-list level (for `substitute`). -/
def toLS (e : Env) : List (LStr × LStr) := e.map (fun kv => (kv.1.data, kv.2.data))

/-- `CommandTreeExecution.substitute` (lines 452-458): `KeyError` from
`substitute` is logged and re-raised as `ValueError`; other errors
(`ValueError` from `string.Template`) propagate unchanged. -/
def ctxSubstitute (x : String) (env : Env) : Except Err String :=
  match substitute x.data (toLS env) with
  | .ok r => .ok ⟨r⟩
  | .error (Err.keyError m) => .error (.valueError ("No such environment variable: " ++ m))
  | .error e => .error e

/-! ## The job-spec tree -/

/-- Value of one `inputs` entry (the serialized `json` document itself is
never observed by the claims, only the filename it produces). -/
inductive IVal : Type where
  | itext : List String → IVal
  | istring : String → IVal
  | ijson : IVal

/-- One `inputs` entry: a Python dict. -/
abbrev InputDoc := List (String × IVal)

mutual
/-- An attribute value of a command node. -/
inductive JValue : Type where
  | vstr : String → JValue
  | vlist : List String → JValue
  | vnodes : List JNode → JValue
  | vinputs : List InputDoc → JValue

/-- A command node: a Python dict from attribute names to values. -/
inductive JNode : Type where
  | mk : List (String × JValue) → JNode
end

/-- The attribute list of a node. -/
def JNode.attrs : JNode → List (String × JValue)
  | .mk a => a

/-- `node[k]` (first binding wins; dict keys are unique). -/
def JNode.get (n : JNode) (k : String) : Option JValue :=
  go n.attrs
where go : List (String × JValue) → Option JValue
  | [] => none
  | (k', v) :: rest => if k' = k then some v else go rest

/-- Python `k in node`. -/
def JNode.hasKey (n : JNode) (k : String) : Bool := (n.get k).isSome

/-! ## The command-tree executor -/

/-- Which runner a leaf dispatches to (`run_cmd` or the in-process
`run_hit`). -/
inductive ProcKind : Type where
  | pcmd
  | phit
  deriving Repr, DecidableEq

/-- Where the child's stdout goes: the log multiplexer, an in-memory
capture buffer (`to_var`), or a file opened in append mode
(`append_to_file`). -/
inductive Sink : Type where
  | slogger
  | sbuffer
  | sfile : String → Sink
  deriving Repr, DecidableEq

/-- One recorded process/hit invocation. -/
structure ProcCall : Type where
  kind : ProcKind
  args : List String
  env : Env
  cwd : String
  sink : Sink
  deriving Repr, DecidableEq

/-- The trace of process/hit invocations made during execution (exceptions
do not erase invocations that already happened). -/
abbrev Trace := List ProcCall

/-- Execution context: the oracles abstracting the filesystem and the
spawned processes, plus the executor's `temp_dir`. -/
structure Ctx : Type where
  oracle : ProcCall → Except String String
  realpath : String → String
  tempDir : String

/-- `run_cmd` / `run_hit` (lines 632-673), abstracted: the child process
(resp. the in-process `hit` helper, including its `logpipe` special case)
is the context's oracle; the call — with `"hit"` prepended as argv[0] for
`run_hit` (line 646) — is recorded in the trace, and an oracle error models
a `CalledProcessError`/`OSError`/failing hit command.  The returned string
is what the child wrote to its stdout sink. -/
def runFunc (ctx : Ctx) (kind : ProcKind) (args : List String) (env : Env) (cwd : String)
    (sink : Sink) : Trace × Except Err String :=
  let call : ProcCall :=
    { kind := kind
      args := match kind with | .phit => "hit" :: args | .pcmd => args
      env := env
      cwd := cwd
      sink := sink }
  ([call],
    match ctx.oracle call with
    | .ok out => .ok out
    | .error m => .error (.procFailed m))

/-- `os.path.isabs` on POSIX. -/
def isabs (p : String) : Bool := p.data.head? = some '/'

/-- One entry of `dump_inputs` (lines 471-492): compute the temp filename
(`<node_pos joined by '_'>_in<i>`, plus `.json` for json inputs) and check
that exactly one of `text`/`json`/`string` is present.  The file write
itself is an unobserved effect. -/
def dump_one (tempDir : String) (node_pos : List Nat) (i : Nat) (inp : InputDoc) :
    Except Err (String × String) :=
  let name := "in" ++ toString i
  let base := pjoin tempDir (pyJoin "_" (node_pos.map toString) ++ "_" ++ name)
  let has := fun k => (inp.lookup k).isSome
  if ((if has "text" then 1 else 0) + (if has "json" then 1 else 0) +
      (if has "string" then 1 else 0)) ≠ 1 then
    .error (.valueError "Need exactly one of text, json, string")
  else if has "text" then
    match inp.lookup "text" with
    | some (.itext _) => .ok (name, base)
    | _ => .error (.typeError "text input must be a list of strings")
  else if has "string" then
    match inp.lookup "string" with
    | some (.istring _) => .ok (name, base)
    | _ => .error (.typeError "string input must be a string")
  else
    .ok (name, base ++ ".json")

/-- `dump_inputs` (lines 460-493): the environment additions
`in0, in1, ...` mapping to the dumped temp filenames. -/
def dump_inputs (tempDir : String) (node_pos : List Nat) :
    Nat → List InputDoc → Except Err (List (String × String))
  | _, [] => .ok []
  | i, inp :: rest =>
    match dump_one tempDir node_pos i inp with
    | .error e => .error e
    | .ok kv =>
      match dump_inputs tempDir node_pos (i + 1) rest with
      | .error e => .error e
      | .ok rest' => .ok (kv :: rest')

/-- `process_cwd` (lines 565-568).  Note the source does *not* substitute
variables into `cwd`.  (A non-string `cwd` value would crash
`os.path.join`; that corner is not modelled.) -/
def process_cwd (node : JNode) (cwd : String) : String :=
  match node.get "cwd" with
  | some (.vstr d) => pjoin cwd d
  | _ => cwd

/-- The `type_keys` list of `run_node` (lines 513-514). -/
def type_keys : List String :=
  ["commands", "cmd", "hit", "set", "prepend_path", "append_path", "prepend_flag", "append_flag"]

/-- `handle_env_mod` (lines 548-557): substitute `value`; `set`, or an
absent/empty variable, assigns; otherwise `prepend`/`append` join with the
separator. -/
def handle_env_mod (node : JNode) (env : Env) (varname : String) (action : String)
    (sep : String) : Except Err Env :=
  match node.get "value" with
  | none => .error (.keyError "value")
  | some (.vstr expr) =>
    match ctxSubstitute expr env with
    | .error e => .error e
    | .ok value =>
      if action = "set" ∨ env.lookupV varname = none ∨ env.lookupV varname = some "" then
        .ok (env.set varname value)
      else if action = "prepend" then
        .ok (env.set varname (value ++ sep ++ (env.lookupV varname).getD ""))
      else if action = "append" then
        .ok (env.set varname ((env.lookupV varname).getD "" ++ sep ++ value))
      else .error .assertionError
  | some _ => .error (.typeError "value must be a string")

/-- `handle_set` (lines 529-530); the separator is unused for `set`. -/
def handle_set (node : JNode) (env : Env) : Except Err Env :=
  match node.get "set" with
  | some (.vstr name) => handle_env_mod node env name "set" ""
  | _ => .error (.typeError "set must name a variable")

/-- `handle_append_path` (lines 532-534); `os.path.pathsep` is `:`. -/
def handle_append_path (node : JNode) (env : Env) : Except Err Env :=
  match node.get "append_path" with
  | some (.vstr name) => handle_env_mod node env name "append" ":"
  | _ => .error (.typeError "append_path must name a variable")

/-- `handle_prepend_path` (lines 536-538). -/
def handle_prepend_path (node : JNode) (env : Env) : Except Err Env :=
  match node.get "prepend_path" with
  | some (.vstr name) => handle_env_mod node env name "prepend" ":"
  | _ => .error (.typeError "prepend_path must name a variable")

/-- `handle_append_flag` (lines 540-542). -/
def handle_append_flag (node : JNode) (env : Env) : Except Err Env :=
  match node.get "append_flag" with
  | some (.vstr name) => handle_env_mod node env name "append" " "
  | _ => .error (.typeError "append_flag must name a variable")

/-- `handle_prepend_flag` (lines 544-546). -/
def handle_prepend_flag (node : JNode) (env : Env) : Except Err Env :=
  match node.get "prepend_flag" with
  | some (.vstr name) => handle_env_mod node env name "prepend" " "
  | _ => .error (.typeError "prepend_flag must name a variable")

/-- `node.get('inputs', ())` with the list-shape requirement. -/
def getInputs (node : JNode) : Except Err (List InputDoc) :=
  match node.get "inputs" with
  | none => .ok []
  | some (.vinputs l) => .ok l
  | some _ => .error (.typeError "inputs must be a list")

/-- Lines 588-597: pick `cmd` or `hit` (in that order) and require the
argument list to be a list. -/
def getArgs (node : JNode) : Except Err (ProcKind × List String) :=
  if node.hasKey "cmd" then
    match node.get "cmd" with
    | some (.vlist args) => .ok (.pcmd, args)
    | _ => .error (.typeError "cmd arguments must be a list")
  else
    match node.get "hit" with
    | some (.vlist args) => .ok (.phit, args)
    | _ => .error (.typeError "hit arguments must be a list")

/-- Line 598: substitute every argument with the node environment. -/
def substArgs : List String → Env → Except Err (List String)
  | [], _ => .ok []
  | x :: rest, env =>
    match ctxSubstitute x env with
    | .error e => .error e
    | .ok x' =>
      match substArgs rest env with
      | .error e => .error e
      | .ok rest' => .ok (x' :: rest')

/-- Python `sum(b1, b2, ...)` over key-membership booleans. -/
def countKeys (node : JNode) (keys : List String) : Nat :=
  (keys.filter node.hasKey).length

/-- `handle_command_nodes` (lines 570-623).  Note the source's second check
(line 575) counts `to_var` together with the stale key name
`stdout_to_file`, not `append_to_file`; and the `commands` check
(line 577) is unreachable from `run_node`, which routes `commands` nodes to
`handle_commands` instead.  The `last_env`/`last_cwd` bookkeeping
(line 623), which only feeds `run_job`'s return value, is not modelled. -/
def handle_command_nodes (ctx : Ctx) (node : JNode) (env : Env) (cwd : String)
    (node_pos : List Nat) : Trace × Except Err Env :=
  if countKeys node ["cmd", "hit", "commands", "set"] ≠ 1 then
    ([], .error (.valueError
      "Each script node should have exactly one of the cmd, hit, commands keys"))
  else if 1 < countKeys node ["to_var", "stdout_to_file"] then
    ([], .error (.valueError "Can only have one of to_var, stdout_to_file"))
  else if node.hasKey "commands" &&
      (node.hasKey "append_to_file" || node.hasKey "to_var" || node.hasKey "inputs") then
    ([], .error (.valueError "commands not compatible with to_var or append_to_file or inputs"))
  else
    let node_cwd := process_cwd node cwd
    if node.hasKey "cmd" || node.hasKey "hit" then
      match getInputs node with
      | .error e => ([], .error e)
      | .ok inputs =>
        match dump_inputs ctx.tempDir node_pos 0 inputs with
        | .error e => ([], .error e)
        | .ok binds =>
          let node_env := env.update binds
          match getArgs node with
          | .error e => ([], .error e)
          | .ok (kind, rawArgs) =>
            match substArgs rawArgs node_env with
            | .error e => ([], .error e)
            | .ok args =>
              match node.get "to_var" with
              | some (.vstr v) =>
                let (tr, res) := runFunc ctx kind args node_env node_cwd .sbuffer
                (tr, match res with
                  | .ok out => .ok (env.set v (pystrip out))
                  | .error e => .error e)
              | some _ => ([], .error (.typeError "to_var must be a string"))
              | none =>
                match node.get "append_to_file" with
                | some (.vstr pexpr) =>
                  match ctxSubstitute pexpr node_env with
                  | .error e => ([], .error e)
                  | .ok p0 =>
                    let p := ctx.realpath (if isabs p0 then p0 else pjoin node_cwd p0)
                    if pyStartswith p ctx.tempDir then
                      ([], .error (.notImplemented
                        "Cannot currently use stream re-direction to write to a log-pipe"))
                    else
                      let (tr, res) := runFunc ctx kind args node_env node_cwd (.sfile p)
                      (tr, match res with
                        | .ok _ => .ok env
                        | .error e => .error e)
                | some _ => ([], .error (.typeError "append_to_file must be a string"))
                | none =>
                  let (tr, res) := runFunc ctx kind args node_env node_cwd .slogger
                  (tr, match res with
                    | .ok _ => .ok env
                    | .error e => .error e)
    else
      ([], .error .assertionError)

mutual
/-- `run_node` (lines 495-527): scan `type_keys` for the action keys (zero
or several found is `InvalidJobSpecError`) and dispatch.  `handle_commands`
(lines 625-630) is inlined in the `commands` arm: the children run against
a copy `sub_env` of the environment, threaded from child to child, which is
then discarded.  Recursion is indexed by explicit fuel; `fuelOut` cannot
arise once the fuel exceeds the tree depth. -/
def run_node (ctx : Ctx) (fuel : Nat) (node : JNode) (env : Env) (cwd : String)
    (node_pos : List Nat) : Trace × Except Err Env :=
  match fuel with
  | 0 => ([], .error .fuelOut)
  | fuel' + 1 =>
    match type_keys.filter node.hasKey with
    | [] => ([], .error (.invalidJobSpec "Node must have one of the type keys"))
    | [t] =>
      if t = "commands" then
        match node.get "commands" with
        | some (.vnodes children) =>
          let node_cwd := process_cwd node cwd
          let (tr, res) := run_children ctx fuel' children env node_cwd node_pos 0
          (tr, match res with
            | .ok _ => .ok env
            | .error e => .error e)
        | some _ => ([], .error (.typeError "commands must be a list of nodes"))
        | none => ([], .error (.keyError "commands"))
      else if t = "cmd" ∨ t = "hit" then
        handle_command_nodes ctx node env cwd node_pos
      else if t = "set" then
        ([], handle_set node env)
      else if t = "prepend_path" then
        ([], handle_prepend_path node env)
      else if t = "append_path" then
        ([], handle_append_path node env)
      else if t = "prepend_flag" then
        ([], handle_prepend_flag node env)
      else if t = "append_flag" then
        ([], handle_append_flag node env)
      else
        ([], .error .assertionError)
    | _ :: _ :: _ => ([], .error (.invalidJobSpec "Several action types present"))

/-- The child loop of `handle_commands` (lines 628-630): run each child at
position `node_pos + (i,)`, threading the group-scope environment. -/
def run_children (ctx : Ctx) (fuel : Nat) (nodes : List JNode) (env : Env) (cwd : String)
    (node_pos : List Nat) (i : Nat) : Trace × Except Err Env :=
  match fuel with
  | 0 => ([], .error .fuelOut)
  | fuel' + 1 =>
    match nodes with
    | [] => ([], .ok env)
    | c :: rest =>
      match run_node ctx fuel' c env cwd (node_pos ++ [i]) with
      | (tr, .error e) => (tr, .error e)
      | (tr, .ok env1) =>
        let (tr2, res) := run_children ctx fuel' rest env1 cwd node_pos (i + 1)
        (tr ++ tr2, res)
end

/-! ## Scope behaviour of the executor -/

/-- Helper: a `commands` node that finishes leaves the caller's environment
exactly as it was (the children ran against the discarded copy `sub_env`). -/
theorem commands_node_env_unchanged (ctx : Ctx) (fuel : Nat) (node : JNode) (env env' : Env)
    (cwd : String) (pos : List Nat) (tr : Trace)
    (hkey : node.hasKey "commands" = true)
    (hrun : run_node ctx fuel node env cwd pos = (tr, Except.ok env')) :
    env' = env := by
  match fuel with
  | 0 => simp [run_node] at hrun
  | fuel' + 1 =>
    have hmem : "commands" ∈ type_keys.filter node.hasKey := by
      refine List.mem_filter.2 ⟨?_, hkey⟩
      simp [type_keys]
    simp only [run_node] at hrun
    split at hrun
    next heq =>
      rw [heq] at hmem
      simp at hmem
    next t heq =>
      rw [heq] at hmem
      have ht : t = "commands" := (List.mem_singleton.mp hmem).symm
      subst ht
      rw [if_pos rfl] at hrun
      split at hrun
      next children hg =>
        cases hres : (run_children ctx fuel' children env (process_cwd node cwd) pos 0).2 with
        | ok e1 =>
          rw [hres] at hrun
          simp at hrun
          exact hrun.2.symm
        | error e =>
          rw [hres] at hrun
          simp at hrun
      next => simp at hrun
      next => simp at hrun
    next t1 t2 r heq => simp at hrun

/-- Helper: a successful `handle_command_nodes` on a node carrying
`to_var: V` returns the caller's environment extended (only) with `V` bound
to the whitespace-stripped captured stdout. -/
theorem handle_command_nodes_to_var (ctx : Ctx) (node : JNode) (env env1 : Env)
    (cwd : String) (pos : List Nat) (tr : Trace) (V : String)
    (htv : node.get "to_var" = some (.vstr V))
    (hrun : handle_command_nodes ctx node env cwd pos = (tr, Except.ok env1)) :
    ∃ out, env1 = env.set V (pystrip out) := by
  simp only [handle_command_nodes] at hrun
  split at hrun
  · simp at hrun
  split at hrun
  · simp at hrun
  split at hrun
  · simp at hrun
  split at hrun
  case _ hleaf =>
    split at hrun
    case _ e hin => simp at hrun
    case _ inputs hin =>
      split at hrun
      case _ e hdump => simp at hrun
      case _ binds hdump =>
        split at hrun
        case _ e hargs => simp at hrun
        case _ ka hargs =>
          split at hrun
          case _ e hsub => simp at hrun
          case _ args hsub =>
            split at hrun
            case _ v' hv' =>
              rw [htv] at hv'
              injection hv' with hv''
              cases hv''
              simp only [runFunc] at hrun
              cases horacle : ctx.oracle _ with
              | ok out =>
                rw [horacle] at hrun
                simp at hrun
                exact ⟨out, hrun.2.symm⟩
              | error m =>
                rw [horacle] at hrun
                simp at hrun
            case _ v' hv' hne =>
              simp at hrun
            case _ hnone =>
              rw [htv] at hnone
              simp at hnone
  case _ => simp at hrun

/-- Helper: `run_node` on a successful `cmd`/`hit` leaf carrying `to_var: V`
behaves as `handle_command_nodes_to_var` says. -/
theorem run_node_to_var_env (ctx : Ctx) (fuel : Nat) (node : JNode) (env env1 : Env)
    (cwd : String) (pos : List Nat) (tr : Trace) (V : String)
    (hcm : node.hasKey "cmd" = true ∨ node.hasKey "hit" = true)
    (htv : node.get "to_var" = some (.vstr V))
    (hrun : run_node ctx fuel node env cwd pos = (tr, Except.ok env1)) :
    ∃ out, env1 = env.set V (pystrip out) := by
  match fuel with
  | 0 => simp [run_node] at hrun
  | fuel' + 1 =>
    have hmem : ("cmd" ∈ type_keys.filter node.hasKey) ∨
        ("hit" ∈ type_keys.filter node.hasKey) := by
      rcases hcm with h | h
      · exact Or.inl (List.mem_filter.2 ⟨by simp [type_keys], h⟩)
      · exact Or.inr (List.mem_filter.2 ⟨by simp [type_keys], h⟩)
    simp only [run_node] at hrun
    split at hrun
    next heq =>
      rw [heq] at hmem
      simp at hmem
    next t heq =>
      rw [heq] at hmem
      have ht : t = "cmd" ∨ t = "hit" := by
        rcases hmem with h | h
        · exact Or.inl (List.mem_singleton.mp h).symm
        · exact Or.inr (List.mem_singleton.mp h).symm
      have hnc : ¬ t = "commands" := by
        rcases ht with h | h <;> subst h <;> decide
      rw [if_neg hnc, if_pos ht] at hrun
      exact handle_command_nodes_to_var ctx node env env1 cwd pos tr V htv hrun
    next t1 t2 r heq => simp at hrun

/-- C1: scope isolation with the `to_var` escape.  Part 1: whatever the
children of a `commands` group do (env mutators, nested groups, `to_var`
writes), once the group finishes the enclosing scope's environment is
unchanged — so no mutation, `to_var` bindings included, escapes past the
group's enclosing scope.  Part 2: inside a group, a `cmd`/`hit` leaf child
carrying `to_var: V` extends the group's own scope with `V` bound to the
captured, whitespace-stripped stdout, that binding is readable, and the
remaining siblings of the group run under exactly that extended scope. -/
theorem c1_scope_isolation_with_to_var_escape :
    (∀ (ctx : Ctx) (fuel : Nat) (node : JNode) (env env' : Env) (cwd : String)
        (pos : List Nat) (tr : Trace),
      node.hasKey "commands" = true →
      run_node ctx fuel node env cwd pos = (tr, Except.ok env') →
      env' = env)
    ∧ (∀ (ctx : Ctx) (fuel : Nat) (leaf : JNode) (rest : List JNode) (env env1 : Env)
        (cwd : String) (pos : List Nat) (i : Nat) (tr1 : Trace) (V : String),
      (leaf.hasKey "cmd" = true ∨ leaf.hasKey "hit" = true) →
      leaf.get "to_var" = some (.vstr V) →
      run_node ctx fuel leaf env cwd (pos ++ [i]) = (tr1, Except.ok env1) →
      ∃ out,
        env1 = env.set V (pystrip out)
        ∧ env1.lookupV V = some (pystrip out)
        ∧ run_children ctx (fuel + 1) (leaf :: rest) env cwd pos i =
            (tr1 ++ (run_children ctx fuel rest env1 cwd pos (i + 1)).1,
              (run_children ctx fuel rest env1 cwd pos (i + 1)).2)) := by
  constructor
  · intro ctx fuel node env env' cwd pos tr hkey hrun
    exact commands_node_env_unchanged ctx fuel node env env' cwd pos tr hkey hrun
  · intro ctx fuel leaf rest env env1 cwd pos i tr1 V hcm htv hrun
    obtain ⟨out, hout⟩ :=
      run_node_to_var_env ctx fuel leaf env env1 cwd (pos ++ [i]) tr1 V hcm htv hrun
    refine ⟨out, hout, ?_, ?_⟩
    · rw [hout]
      exact Env.lookupV_set_same env V (pystrip out)
    · simp only [run_children, hrun]

/-- A concrete context for the evaluation theorems: every process writes
`"out\n"` to its stdout sink; `realpath` is the identity; the executor's
temp dir is `/t`. -/
def egCtx : Ctx := { oracle := fun _ => .ok "out\n", realpath := id, tempDir := "/t" }

/-- `[set A 2]` child used inside the example group. -/
def egSetNode : JNode := .mk [("set", .vstr "A"), ("value", .vstr "2")]

/-- A group whose child sets `A` to `2`. -/
def egGroup : JNode := .mk [("commands", .vnodes [egSetNode])]

/-- A `cmd` leaf with `to_var: V`. -/
def egLeaf : JNode := .mk [("cmd", .vlist ["prog"]), ("to_var", .vstr "V")]

/-- C1 witness: the theorem applied to the concrete group `egGroup` (whose
child sets `A` to `2` inside the group scope, yet the outer environment
keeps `A = 1`) and to the concrete `to_var` leaf `egLeaf`. -/
theorem c1_scope_isolation_with_to_var_escape_witness :
    egGroup.hasKey "commands" = true
    ∧ egLeaf.get "to_var" = some (JValue.vstr "V")
    ∧ ([("A", "1")] : Env) = [("A", "1")]
    ∧ ∃ out, ([("V", "out")] : Env) = Env.set [] "V" (pystrip out) := by
  have hrun1 : run_node egCtx 3 egGroup [("A", "1")] "/w" [] = ([], Except.ok [("A", "1")]) := by
    simp [run_node, run_children, handle_command_nodes, handle_set, handle_env_mod,
      getInputs, getArgs, substArgs, ctxSubstitute, substitute, pyContains, pyReplace,
      tmplSub, runFunc, countKeys, JNode.hasKey, JNode.get, JNode.get.go, type_keys,
      process_cwd, Env.update, Env.set, Env.lookupV, pystrip, dump_inputs, toLS,
      egGroup, egSetNode, egCtx, isabs, pyStartswith, isPyWhitespace, lookupLS,
      isIdentStart, isIdentChar]
  have hrun2 : run_node egCtx 1 egLeaf [] "/w" ([] ++ [0]) =
      ([{ kind := .pcmd, args := ["prog"], env := [], cwd := "/w", sink := .sbuffer }],
        Except.ok [("V", "out")]) := by
    simp [run_node, run_children, handle_command_nodes, handle_set, handle_env_mod,
      getInputs, getArgs, substArgs, ctxSubstitute, substitute, pyContains, pyReplace,
      tmplSub, runFunc, countKeys, JNode.hasKey, JNode.get, JNode.get.go, type_keys,
      process_cwd, Env.update, Env.set, Env.lookupV, pystrip, dump_inputs, toLS,
      egLeaf, egCtx, isabs, pyStartswith, isPyWhitespace, lookupLS,
      isIdentStart, isIdentChar]
  have h1 := c1_scope_isolation_with_to_var_escape.1 egCtx 3 egGroup [("A", "1")]
    [("A", "1")] "/w" [] [] rfl hrun1
  have h2 := c1_scope_isolation_with_to_var_escape.2 egCtx 1 egLeaf [] [] [("V", "out")]
    "/w" [] 0 [{ kind := .pcmd, args := ["prog"], env := [], cwd := "/w", sink := .sbuffer }]
    "V" (Or.inl rfl) rfl hrun2
  obtain ⟨out, ho1, ho2, ho3⟩ := h2
  exact ⟨rfl, rfl, h1, out, ho1⟩

/-- A leaf carrying BOTH `to_var` and `append_to_file` (the claim says this
must be rejected as InvalidJobSpec before any command runs). -/
def egBothNode : JNode :=
  .mk [("cmd", .vlist ["prog"]), ("to_var", .vstr "V"), ("append_to_file", .vstr "f")]

/-- C4: the exclusivity check at line 575 counts `to_var` together with the
stale key name `stdout_to_file` instead of `append_to_file`, so a leaf
carrying both `to_var` and `append_to_file` passes validation: the command
IS run (once, with the capture-buffer sink), `to_var` receives the stripped
stdout, and `append_to_file` is silently ignored — no `InvalidJobSpec`
(nor any other) error is raised. -/
theorem c4_to_var_append_to_file_not_rejected_eval :
    run_node egCtx 1 egBothNode [] "/w" [] =
      ([{ kind := .pcmd, args := ["prog"], env := [], cwd := "/w", sink := .sbuffer }],
        Except.ok [("V", "out")]) := by
  simp [run_node, run_children, handle_command_nodes, getInputs, getArgs, substArgs,
    ctxSubstitute, substitute, pyContains, pyReplace, tmplSub, runFunc, countKeys,
    JNode.hasKey, JNode.get, JNode.get.go, type_keys, process_cwd, Env.update, Env.set,
    pystrip, dump_inputs, toLS, egBothNode, egCtx, isabs, pyStartswith, isPyWhitespace,
    lookupLS, isIdentStart, isIdentChar]

/-- A `commands` group node carrying all three forbidden modifiers. -/
def egGroupWithModifiers : JNode :=
  .mk [("commands", .vnodes []), ("to_var", .vstr "X"),
       ("append_to_file", .vstr "f"), ("inputs", .vinputs [])]

/-- C5: `run_node` routes `commands` nodes straight to `handle_commands`,
which performs no modifier validation; the rejection coded at lines 577-578
lives in `handle_command_nodes`, reachable only from `cmd`/`hit` nodes, so
it is dead for groups.  A `commands` node carrying `to_var`,
`append_to_file` and `inputs` therefore executes successfully and the
modifiers are silently ignored (no error, no process run, environment
unchanged). -/
theorem c5_group_modifiers_not_rejected_eval :
    run_node egCtx 2 egGroupWithModifiers [("A", "1")] "/w" [] =
      ([], Except.ok [("A", "1")]) := by
  simp [run_node, run_children, handle_command_nodes, getInputs, getArgs, substArgs,
    ctxSubstitute, substitute, pyContains, pyReplace, tmplSub, runFunc, countKeys,
    JNode.hasKey, JNode.get, JNode.get.go, type_keys, process_cwd, Env.update, Env.set,
    pystrip, dump_inputs, toLS, egGroupWithModifiers, egCtx, isabs, pyStartswith,
    isPyWhitespace, lookupLS, isIdentStart, isIdentChar]

/-- Example node: `prepend_path FOO value a`. -/
def egPrependA : JNode := .mk [("prepend_path", .vstr "FOO"), ("value", .vstr "a")]

/-- Example node: `prepend_path FOO value b`. -/
def egPrependB : JNode := .mk [("prepend_path", .vstr "FOO"), ("value", .vstr "b")]

/-- C6: semantics of the environment mutators (`handle_env_mod`,
lines 548-557).  `set` assigns unconditionally; the path/flag mutators
assign when the variable is absent or empty and otherwise join with the
separator, `prepend` placing the new value first and `append` last; the
dispatchers pass `os.path.pathsep` (`:`) for `*_path` and a single space
for `*_flag`; and two `prepend_path` of `a` then `b` on an absent `FOO`
yield `b:a`. -/
theorem c6_env_mutator_semantics :
    (∀ (node : JNode) (env : Env) (varname sep expr value : String),
      node.get "value" = some (.vstr expr) →
      ctxSubstitute expr env = Except.ok value →
      (handle_env_mod node env varname "set" sep = Except.ok (env.set varname value))
      ∧ ((env.lookupV varname = none ∨ env.lookupV varname = some "") →
          handle_env_mod node env varname "prepend" sep = Except.ok (env.set varname value)
          ∧ handle_env_mod node env varname "append" sep = Except.ok (env.set varname value))
      ∧ (∀ old, env.lookupV varname = some old → old ≠ "" →
          handle_env_mod node env varname "prepend" sep =
            Except.ok (env.set varname (value ++ sep ++ old))
          ∧ handle_env_mod node env varname "append" sep =
            Except.ok (env.set varname (old ++ sep ++ value))))
    ∧ (∀ (node : JNode) (env : Env) (name : String),
        node.get "prepend_path" = some (.vstr name) →
        handle_prepend_path node env = handle_env_mod node env name "prepend" ":")
    ∧ (∀ (node : JNode) (env : Env) (name : String),
        node.get "append_path" = some (.vstr name) →
        handle_append_path node env = handle_env_mod node env name "append" ":")
    ∧ (∀ (node : JNode) (env : Env) (name : String),
        node.get "prepend_flag" = some (.vstr name) →
        handle_prepend_flag node env = handle_env_mod node env name "prepend" " ")
    ∧ (∀ (node : JNode) (env : Env) (name : String),
        node.get "append_flag" = some (.vstr name) →
        handle_append_flag node env = handle_env_mod node env name "append" " ")
    ∧ (run_node egCtx 1 egPrependA [] "/w" []).2 = Except.ok [("FOO", "a")]
    ∧ (run_node egCtx 1 egPrependB [("FOO", "a")] "/w" []).2 = Except.ok [("FOO", "b:a")] := by
  refine ⟨?_, ?_, ?_, ?_, ?_, ?_, ?_⟩
  · intro node env varname sep expr value hval hsub
    refine ⟨?_, ?_, ?_⟩
    · simp [handle_env_mod, hval, hsub]
    · intro habs
      constructor <;> rcases habs with h | h <;> simp [handle_env_mod, hval, hsub, h]
    · intro old hold hne
      have hcond : ¬("prepend" = "set" ∨ env.lookupV varname = none ∨
          env.lookupV varname = some "") := by
        simp [hold]
        exact hne
      have hcond2 : ¬("append" = "set" ∨ env.lookupV varname = none ∨
          env.lookupV varname = some "") := by
        simp [hold]
        exact hne
      constructor
      · simp [handle_env_mod, hval, hsub, hcond, hold]
        intro h
        exact absurd h hne
      · simp [handle_env_mod, hval, hsub, hcond2, hold]
        intro h
        exact absurd h hne
  · intro node env name h
    simp [handle_prepend_path, h]
  · intro node env name h
    simp [handle_append_path, h]
  · intro node env name h
    simp [handle_prepend_flag, h]
  · intro node env name h
    simp [handle_append_flag, h]
  · simp [run_node, handle_prepend_path, handle_env_mod, ctxSubstitute, substitute,
      pyContains, pyReplace, tmplSub, JNode.hasKey, JNode.get, JNode.get.go, type_keys,
      Env.set, Env.lookupV, toLS, egPrependA, egCtx, lookupLS, isIdentStart, isIdentChar]
  · simp [run_node, handle_prepend_path, handle_env_mod, ctxSubstitute, substitute,
      pyContains, pyReplace, tmplSub, JNode.hasKey, JNode.get, JNode.get.go, type_keys,
      Env.set, Env.lookupV, toLS, egPrependB, egCtx, lookupLS, isIdentStart, isIdentChar]

/-- C6 witness: the theorem applied at a concrete node and environment,
covering the set, absent-variable, and join branches. -/
theorem c6_env_mutator_semantics_witness :
    handle_env_mod (.mk [("value", .vstr "x")]) [("P", "1")] "P" "set" ":" =
        Except.ok [("P", "x")]
    ∧ handle_env_mod (.mk [("value", .vstr "x")]) [("P", "1")] "Q" "prepend" ":" =
        Except.ok [("P", "1"), ("Q", "x")]
    ∧ handle_env_mod (.mk [("value", .vstr "x")]) [("P", "1")] "P" "prepend" ":" =
        Except.ok [("P", "x:1")]
    ∧ handle_env_mod (.mk [("value", .vstr "x")]) [("P", "1")] "P" "append" " " =
        Except.ok [("P", "1 x")] := by
  have hsub : ctxSubstitute "x" [("P", "1")] = Except.ok "x" := by
    simp [ctxSubstitute, substitute, pyContains, pyReplace, tmplSub, toLS]
  have h := c6_env_mutator_semantics.1 (.mk [("value", .vstr "x")]) [("P", "1")]
  refine ⟨?_, ?_, ?_, ?_⟩
  · exact (h "P" ":" "x" "x" rfl hsub).1
  · have := ((h "Q" ":" "x" "x" rfl hsub).2.1 (Or.inl rfl)).1
    simpa [Env.set] using this
  · have := ((h "P" ":" "x" "x" rfl hsub).2.2 "1" rfl (by decide)).1
    simpa [Env.set] using this
  · have := ((h "P" " " "x" "x" rfl hsub).2.2 "1" rfl (by decide)).2
    simpa [Env.set] using this

/-- "p lies under directory d" in the path sense (the spec's wording):
`p` is `d` itself or is inside it past a `/` boundary. -/
def pathUnder (d p : String) : Bool := p = d || pyStartswith p (d ++ "/")

/-- Context for the C9 counterexample: temp dir `/t/d`, identity realpath. -/
def egRedirCtx : Ctx := { oracle := fun _ => .ok "out\n", realpath := id, tempDir := "/t/d" }

/-- Leaf redirecting to `/t/dx` — a sibling of `/t/d` whose name merely has
`/t/d` as a string prefix. -/
def egRedirNode : JNode := .mk [("cmd", .vlist ["prog"]), ("append_to_file", .vstr "/t/dx")]

/-- C9 counterexample: `/t/dx` does not lie under the temp dir `/t/d`, so
the claim says the file is opened and used as the stdout sink; but the code
tests `stdout_filename.startswith(self.temp_dir)` — a raw string-prefix
check — and rejects the node with the NotImplementedError
(RedirectionIntoTempDir). -/
theorem c9_redirection_counterexample :
    pathUnder "/t/d" "/t/dx" = false
    ∧ run_node egRedirCtx 1 egRedirNode [] "/w" [] =
        ([], Except.error (Err.notImplemented
          "Cannot currently use stream re-direction to write to a log-pipe")) := by
  constructor
  · decide
  · simp [run_node, run_children, handle_command_nodes, getInputs, getArgs, substArgs,
      ctxSubstitute, substitute, pyContains, pyReplace, tmplSub, runFunc, countKeys,
      JNode.hasKey, JNode.get, JNode.get.go, type_keys, process_cwd, Env.update, Env.set,
      pystrip, dump_inputs, toLS, egRedirNode, egRedirCtx, isabs, pyStartswith,
      isPyWhitespace, lookupLS, isIdentStart, isIdentChar]

/-- C9 (amended): for a `cmd` leaf with `append_to_file`, the path is
variable-substituted with the node environment, resolved against the node's
working directory when relative, and canonicalized by `realpath`; if the
resulting path has the executor's `temp_dir` as a *string prefix*
(`str.startswith` — not a path-boundary "lies under" check) the node fails
with the NotImplementedError standing for RedirectionIntoTempDir and no
command is run (empty trace); otherwise the command runs exactly once with
the append-file sink on that path, and the caller's environment is
returned unchanged. -/
theorem c9_redirection_amended (ctx : Ctx) (fuel : Nat) (node : JNode) (env : Env)
    (cwd : String) (pos : List Nat) (rawArgs args : List String)
    (binds : List (String × String)) (inputs : List InputDoc) (pexpr p0 : String)
    (h1 : node.hasKey "commands" = false)
    (h2 : node.hasKey "cmd" = true)
    (h3 : node.hasKey "hit" = false)
    (h4 : node.hasKey "set" = false)
    (h5 : node.hasKey "prepend_path" = false)
    (h6 : node.hasKey "append_path" = false)
    (h7 : node.hasKey "prepend_flag" = false)
    (h8 : node.hasKey "append_flag" = false)
    (htv : node.get "to_var" = none)
    (hstf : node.get "stdout_to_file" = none)
    (hafile : node.get "append_to_file" = some (.vstr pexpr))
    (hinputs : getInputs node = Except.ok inputs)
    (hdump : dump_inputs ctx.tempDir pos 0 inputs = Except.ok binds)
    (hcargs : node.get "cmd" = some (.vlist rawArgs))
    (hsubargs : substArgs rawArgs (env.update binds) = Except.ok args)
    (hpathsub : ctxSubstitute pexpr (env.update binds) = Except.ok p0) :
    (pyStartswith (ctx.realpath (if isabs p0 then p0
          else pjoin (process_cwd node cwd) p0)) ctx.tempDir = true →
      run_node ctx (fuel + 1) node env cwd pos =
        ([], Except.error (Err.notImplemented
          "Cannot currently use stream re-direction to write to a log-pipe")))
    ∧ (∀ out,
        pyStartswith (ctx.realpath (if isabs p0 then p0
            else pjoin (process_cwd node cwd) p0)) ctx.tempDir = false →
        ctx.oracle
          { kind := .pcmd, args := args, env := env.update binds,
            cwd := process_cwd node cwd,
            sink := .sfile (ctx.realpath (if isabs p0 then p0
              else pjoin (process_cwd node cwd) p0)) } = Except.ok out →
        run_node ctx (fuel + 1) node env cwd pos =
          ([{ kind := .pcmd, args := args, env := env.update binds,
              cwd := process_cwd node cwd,
              sink := .sfile (ctx.realpath (if isabs p0 then p0
                else pjoin (process_cwd node cwd) p0)) }],
            Except.ok env)) := by
  have hfilter : type_keys.filter node.hasKey = ["cmd"] := by
    simp [type_keys, List.filter, h1, h2, h3, h4, h5, h6, h7, h8]
  have hhk_tv : node.hasKey "to_var" = false := by simp [JNode.hasKey, htv]
  have hhk_stf : node.hasKey "stdout_to_file" = false := by simp [JNode.hasKey, hstf]
  have hck1 : countKeys node ["cmd", "hit", "commands", "set"] = 1 := by
    simp [countKeys, List.filter, h1, h2, h3, h4]
  have hck2 : countKeys node ["to_var", "stdout_to_file"] = 0 := by
    simp [countKeys, List.filter, hhk_tv, hhk_stf]
  have hbody : run_node ctx (fuel + 1) node env cwd pos =
      handle_command_nodes ctx node env cwd pos := by
    simp [run_node, hfilter]
  constructor
  · intro hsw
    rw [hbody]
    simp only [handle_command_nodes, hck1, hck2, h1, h2, hinputs, hdump, hsubargs,
      hpathsub, hafile, htv]
    simp [hck1, hck2, h1, h2, getArgs, hcargs, JNode.hasKey, hsubargs, htv, hafile,
      hpathsub, hsw]
  · intro out hsw horacle
    rw [hbody]
    simp only [handle_command_nodes, hck1, hck2, h1, h2, hinputs, hdump, hsubargs,
      hpathsub, hafile, htv]
    simp [hck1, hck2, h1, h2, getArgs, hcargs, JNode.hasKey, hsubargs, htv, hafile,
      hpathsub, hsw, runFunc, horacle]

/-- Leaf redirecting to the relative path `f`. -/
def egRedirNodeRel : JNode := .mk [("cmd", .vlist ["prog"]), ("append_to_file", .vstr "f")]

/-- C9 witness: the amended theorem applied to `egRedirNode` (absolute
path with the temp dir as a string prefix: rejected, empty trace) and to
`egRedirNodeRel` (relative path `f`, resolved against the node cwd `/w`
and used as the append-file sink). -/
theorem c9_redirection_amended_witness :
    run_node egRedirCtx 1 egRedirNode [] "/w" [] =
      ([], Except.error (Err.notImplemented
        "Cannot currently use stream re-direction to write to a log-pipe"))
    ∧ run_node egCtx 1 egRedirNodeRel [] "/w" [] =
      ([{ kind := .pcmd, args := ["prog"], env := [], cwd := "/w", sink := .sfile "/w/f" }],
        Except.ok []) := by
  constructor
  · exact (c9_redirection_amended egRedirCtx 0 egRedirNode [] "/w" [] ["prog"] ["prog"]
      [] [] "/t/dx" "/t/dx" rfl rfl rfl rfl rfl rfl rfl rfl rfl rfl rfl rfl rfl rfl
      (by simp [substArgs, ctxSubstitute, substitute, pyContains, pyReplace, tmplSub, toLS,
        Env.update])
      (by simp [ctxSubstitute, substitute, pyContains, pyReplace, tmplSub, toLS,
        Env.update])).1 (by decide)
  · exact (c9_redirection_amended egCtx 0 egRedirNodeRel [] "/w" [] ["prog"] ["prog"]
      [] [] "f" "f" rfl rfl rfl rfl rfl rfl rfl rfl rfl rfl rfl rfl rfl rfl
      (by simp [substArgs, ctxSubstitute, substitute, pyContains, pyReplace, tmplSub, toLS,
        Env.update])
      (by simp [ctxSubstitute, substitute, pyContains, pyReplace, tmplSub, toLS,
        Env.update])).2 "out\n" (by decide) rfl

/-! ## The import resolver (`get_imports_env`, lines 321-403) -/

/-- A canonicalized entry of the job spec's `import` list
(`canonicalize_job_spec` fills `in_env := true`, `ref := none`). -/
structure ImportEntry : Type where
  id : String
  ref : Option String
  in_env : Bool

/-- The artifact store (`build_store.resolve`) and the `os.path.exists`
oracle consulted by `get_imports_env`. -/
structure StoreCtx : Type where
  resolve : String → Option String
  pexists : String → Bool

/-- Virtual-id resolution (lines 363-368): an id starting with `virtual:`
is looked up in the `virtuals` mapping; absence raises `ValueError`. -/
def resolveVirtual (virtuals : List (String × String)) (depId : String) :
    Except Err String :=
  if pyStartswith depId "virtual:" then
    match Env.lookupV virtuals depId with
    | some c => .ok c
    | none =>
      .error (.valueError "build spec contained a virtual dependency that was not provided")
  else .ok depId

/-- The loop of `get_imports_env` (lines 356-396) as a fold with explicit
accumulators `(env, PATH, HDIST_CFLAGS, HDIST_LDFLAGS, HDIST_IMPORT,
HDIST_IMPORT_PATHS)`. -/
def importsLoop (st : StoreCtx) (virtuals : List (String × String)) :
    List ImportEntry → Env → List String → List String → List String → List String →
    List String →
    Except Err (Env × List String × List String × List String × List String × List String)
  | [], env, path, cf, ld, imp, impp => .ok (env, path, cf, ld, imp, impp)
  | dep :: rest, env, path, cf, ld, imp, impp =>
    let imp' := imp ++ [dep.id]
    match resolveVirtual virtuals dep.id with
    | .error e => .error e
    | .ok depId =>
      match st.resolve depId with
      | none => .error (.invalidJobSpec "Dependency not already built, please build it first")
      | some depDir =>
        let impp' := impp ++ [depDir]
        let env' := match dep.ref with
          | some r => (env.set r depDir).set (r ++ "_ID") depId
          | none => env
        if dep.in_env then
          let path' := if st.pexists (pjoin depDir "bin") then path ++ [pjoin depDir "bin"]
            else path
          let cf' := if st.pexists (pjoin depDir "include") then
              cf ++ ["-I" ++ pjoin depDir "include"]
            else cf
          match (["lib", "lib32", "lib64"].map (pjoin depDir)).filter st.pexists with
          | [] => importsLoop st virtuals rest env' path' cf' ld imp' impp'
          | [l] =>
            importsLoop st virtuals rest env' path' cf' (ld ++ ["-L" ++ l, "-Wl,-R," ++ l])
              imp' impp'
          | _ :: _ :: _ =>
            .error (.invalidJobSpec "more than one library dir")
        else
          importsLoop st virtuals rest env' path cf ld imp' impp'

/-- `get_imports_env` (lines 321-403): run the loop from empty accumulators
and emit the five aggregate variables (PATH joined with `os.path.pathsep`,
the others space-joined). -/
def get_imports_env (st : StoreCtx) (virtuals : List (String × String))
    (imports : List ImportEntry) : Except Err Env :=
  match importsLoop st virtuals imports [] [] [] [] [] [] with
  | .error e => .error e
  | .ok (env, path, cf, ld, imp, impp) =>
    .ok (((((env.set "PATH" (pyJoin ":" path)).set "HDIST_CFLAGS" (pyJoin " " cf)).set
      "HDIST_LDFLAGS" (pyJoin " " ld)).set "HDIST_IMPORT" (pyJoin " " imp)).set
      "HDIST_IMPORT_PATHS" (pyJoin " " impp))

/-- The `bin` directories the code accumulates into `PATH`: those of the
resolved paths of imports whose `in_env` flag is set and whose `bin`
subdirectory exists, in import order. -/
def expectedBins (st : StoreCtx) (virtuals : List (String × String)) :
    List ImportEntry → List String
  | [] => []
  | dep :: rest =>
    (match resolveVirtual virtuals dep.id with
     | .ok depId =>
       match st.resolve depId with
       | some depDir =>
         if dep.in_env && st.pexists (pjoin depDir "bin") then [pjoin depDir "bin"] else []
       | none => []
     | .error _ => []) ++ expectedBins st virtuals rest

/-- Helper: the loop appends exactly the in-env existing `bin` directories
to the `PATH` accumulator and the raw ids to `HDIST_IMPORT`, in import
order. -/
theorem importsLoop_spec (st : StoreCtx) (virtuals : List (String × String)) :
    ∀ (imports : List ImportEntry) (env : Env) (path cf ld imp impp : List String)
      (env' : Env) (path' cf' ld' imp' impp' : List String),
    importsLoop st virtuals imports env path cf ld imp impp =
      Except.ok (env', path', cf', ld', imp', impp') →
    path' = path ++ expectedBins st virtuals imports
    ∧ imp' = imp ++ imports.map ImportEntry.id := by
  intro imports
  induction imports with
  | nil =>
    intro env path cf ld imp impp env' path' cf' ld' imp' impp' h
    simp only [importsLoop] at h
    simp only [Except.ok.injEq, Prod.mk.injEq] at h
    obtain ⟨-, h2, -, -, h5, -⟩ := h
    simp [expectedBins, h2.symm, h5.symm]
  | cons dep rest ih =>
    intro env path cf ld imp impp env' path' cf' ld' imp' impp' h
    simp only [importsLoop] at h
    split at h
    · simp at h
    case _ depId hrv =>
      split at h
      · simp at h
      case _ depDir hres =>
        split at h
        case isTrue hin =>
          split at h
          case _ hlib =>
            obtain ⟨hp, hi⟩ := ih _ _ _ _ _ _ _ _ _ _ _ _ h
            constructor
            · rw [hp]
              simp only [expectedBins, hrv, hres, hin, Bool.true_and]
              by_cases hb : st.pexists (pjoin depDir "bin") <;>
                simp [hb, List.append_assoc]
            · rw [hi]
              simp [List.append_assoc]
          case _ l hlib =>
            obtain ⟨hp, hi⟩ := ih _ _ _ _ _ _ _ _ _ _ _ _ h
            constructor
            · rw [hp]
              simp only [expectedBins, hrv, hres, hin, Bool.true_and]
              by_cases hb : st.pexists (pjoin depDir "bin") <;>
                simp [hb, List.append_assoc]
            · rw [hi]
              simp [List.append_assoc]
          case _ => simp at h
        case isFalse hin =>
          obtain ⟨hp, hi⟩ := ih _ _ _ _ _ _ _ _ _ _ _ _ h
          constructor
          · rw [hp]
            simp only [expectedBins, hrv, hres]
            simp only [Bool.not_eq_true] at hin
            simp [hin]
          · rw [hi]
            simp [List.append_assoc]

/-- C7 (amended): when `get_imports_env` succeeds, `PATH` is exactly the
`os.path.pathsep`-join of the existing `bin` subdirectories of the resolved
paths *of the imports whose `in_env` flag is set*, in import order, and
`HDIST_IMPORT` is the space-join of the raw (pre-virtual-resolution) ids of
*all* imports, in import order. -/
theorem c7_import_ordering_amended (st : StoreCtx) (virtuals : List (String × String))
    (imports : List ImportEntry) (env : Env)
    (h : get_imports_env st virtuals imports = Except.ok env) :
    env.lookupV "PATH" = some (pyJoin ":" (expectedBins st virtuals imports))
    ∧ env.lookupV "HDIST_IMPORT" = some (pyJoin " " (imports.map ImportEntry.id)) := by
  unfold get_imports_env at h
  split at h
  · simp at h
  case _ env0 path cf ld imp impp heq =>
    obtain ⟨hp, hi⟩ := importsLoop_spec st virtuals imports [] [] [] [] [] [] _ _ _ _ _ _ heq
    simp only [List.nil_append] at hp hi
    injection h with h
    subst h
    constructor
    · rw [Env.lookupV_set_ne _ _ _ _ (by decide), Env.lookupV_set_ne _ _ _ _ (by decide),
        Env.lookupV_set_ne _ _ _ _ (by decide), Env.lookupV_set_ne _ _ _ _ (by decide),
        Env.lookupV_set_same, hp]
    · rw [Env.lookupV_set_ne _ _ _ _ (by decide), Env.lookupV_set_same, hi]

/-- Store for the C7 examples: artifact `a` resolves to `/A`; only
`/A/bin` exists on the filesystem. -/
def egStore : StoreCtx :=
  { resolve := fun i => if i = "a" then some "/A" else none,
    pexists := fun p => p = "/A/bin" }

/-- Import of `a` with `in_env = false`. -/
def egImportNoEnv : ImportEntry := ⟨"a", none, false⟩

/-- C7 counterexample: import `a` resolves to `/A` and `/A/bin` exists, so
the claim's "join of existing bin subdirectories of the resolved import
paths" is `/A/bin`; but the import carries `in_env = false`, which the
claim omits and the code honours, so the resulting `PATH` is empty. -/
theorem c7_import_ordering_counterexample :
    get_imports_env egStore [] [egImportNoEnv] =
      Except.ok [("PATH", ""), ("HDIST_CFLAGS", ""), ("HDIST_LDFLAGS", ""),
        ("HDIST_IMPORT", "a"), ("HDIST_IMPORT_PATHS", "/A")]
    ∧ egStore.resolve "a" = some "/A"
    ∧ egStore.pexists (pjoin "/A" "bin") = true
    ∧ pyJoin ":" [pjoin "/A" "bin"] = "/A/bin"
    ∧ ("/A/bin" : String) ≠ "" := by
  refine ⟨?_, ?_, ?_, ?_, ?_⟩ <;> first | rfl | decide

/-- Import of `a` with `in_env = true`. -/
def egImportInEnv : ImportEntry := ⟨"a", none, true⟩

/-- C7 witness: the amended theorem applied to the concrete store with an
`in_env` import, giving `PATH = "/A/bin"` and `HDIST_IMPORT = "a"`. -/
theorem c7_import_ordering_amended_witness :
    Env.lookupV [("PATH", "/A/bin"), ("HDIST_CFLAGS", ""), ("HDIST_LDFLAGS", ""),
        ("HDIST_IMPORT", "a"), ("HDIST_IMPORT_PATHS", "/A")] "PATH" = some "/A/bin"
    ∧ Env.lookupV [("PATH", "/A/bin"), ("HDIST_CFLAGS", ""), ("HDIST_LDFLAGS", ""),
        ("HDIST_IMPORT", "a"), ("HDIST_IMPORT_PATHS", "/A")] "HDIST_IMPORT" = some "a" := by
  have h := c7_import_ordering_amended egStore [] [egImportInEnv]
    [("PATH", "/A/bin"), ("HDIST_CFLAGS", ""), ("HDIST_LDFLAGS", ""),
      ("HDIST_IMPORT", "a"), ("HDIST_IMPORT_PATHS", "/A")] rfl
  exact ⟨h.1, h.2⟩

/-! ## `HDIST_VIRTUALS` packing (lines 405-412) -/

/-- The order `sorted(virtuals.items())` uses: Python sorts the `(k, v)`
tuples lexicographically (byte-string comparison on each component). -/
def pairLe (a b : String × String) : Prop :=
  a.1 < b.1 ∨ (a.1 = b.1 ∧ a.2 ≤ b.2)

instance : DecidableRel pairLe := fun a b => by
  unfold pairLe
  infer_instance

instance : IsTotal (String × String) pairLe :=
  ⟨by
    intro a b
    rcases lt_trichotomy a.1 b.1 with h | h | h
    · exact Or.inl (Or.inl h)
    · rcases le_total a.2 b.2 with h2 | h2
      · exact Or.inl (Or.inr ⟨h, h2⟩)
      · exact Or.inr (Or.inr ⟨h.symm, h2⟩)
    · exact Or.inr (Or.inl h)⟩

instance : IsTrans (String × String) pairLe :=
  ⟨by
    intro a b c hab hbc
    rcases hab with h1 | ⟨h1, h1'⟩ <;> rcases hbc with h2 | ⟨h2, h2'⟩
    · exact Or.inl (lt_trans h1 h2)
    · exact Or.inl (h2 ▸ h1)
    · exact Or.inl (h1 ▸ h2)
    · exact Or.inr ⟨h1.trans h2, le_trans h1' h2'⟩⟩

instance : IsAntisymm (String × String) pairLe :=
  ⟨by
    intro a b hab hba
    rcases hab with h1 | ⟨h1, h1'⟩ <;> rcases hba with h2 | ⟨h2, h2'⟩
    · exact absurd h2 (lt_asymm h1)
    · exact absurd h1 (h2 ▸ lt_irrefl _)
    · exact absurd h2 (h1 ▸ lt_irrefl _)
    · exact Prod.ext h1 (le_antisymm h1' h2')⟩

/-- `pack_virtuals_envvar` (lines 405-406): semicolon-join of `k=v` over
the sorted items. -/
def pack_virtuals_envvar (virtuals : List (String × String)) : String :=
  pyJoin ";" ((virtuals.insertionSort pairLe).map (fun kv => kv.1 ++ "=" ++ kv.2))

/-- Python `tuple(tup.split('='))` fed to `dict(...)`: anything but exactly
one `=` makes `dict` raise (modelled as `none`). -/
def parseKV (s : LStr) : Option (String × String) :=
  match pySplitChar '=' s with
  | [k, v] => some (⟨k⟩, ⟨v⟩)
  | _ => none

/-- Parse every `;`-separated chunk. -/
def parseKVs : List LStr → Option (List (String × String))
  | [] => some []
  | s :: rest =>
    match parseKV s with
    | none => none
    | some kv =>
      match parseKVs rest with
      | none => none
      | some rest' => some (kv :: rest')

/-- Python `dict(pairs)`: later bindings override earlier ones. -/
def dictOfPairs (pairs : List (String × String)) : Env :=
  pairs.foldl (fun acc kv => acc.set kv.1 kv.2) []

/-- `unpack_virtuals_envvar` (lines 408-412). -/
def unpack_virtuals_envvar (x : String) : Option Env :=
  if x = "" then some []
  else
    match parseKVs (pySplitChar ';' x.data) with
    | none => none
    | some pairs => some (dictOfPairs pairs)

theorem pySplitChar_ne_nil (sep : Char) (s : LStr) : pySplitChar sep s ≠ [] := by
  cases s with
  | nil => simp [pySplitChar]
  | cons c r =>
    simp only [pySplitChar]
    split
    · simp
    · split <;> simp

theorem pySplitChar_no_sep (sep : Char) (s : LStr) (h : sep ∉ s) :
    pySplitChar sep s = [s] := by
  induction s with
  | nil => simp [pySplitChar]
  | cons c r ih =>
    have hc : c ≠ sep := fun hc => h (hc ▸ List.mem_cons_self c r)
    have hr : sep ∉ r := fun hr => h (List.mem_cons_of_mem c hr)
    simp [pySplitChar, ih hr, hc]

theorem pySplitChar_append_sep (sep : Char) (s t : LStr) (h : sep ∉ s) :
    pySplitChar sep (s ++ sep :: t) = s :: pySplitChar sep t := by
  induction s with
  | nil =>
    simp only [List.nil_append, pySplitChar]
    cases hps : pySplitChar sep t with
    | nil => exact absurd hps (pySplitChar_ne_nil sep t)
    | cons p ps => simp
  | cons c r ih =>
    have hc : c ≠ sep := fun hc => h (hc ▸ List.mem_cons_self c r)
    have hr : sep ∉ r := fun hr => h (List.mem_cons_of_mem c hr)
    simp only [List.cons_append, pySplitChar, List.append_eq]
    rw [ih hr]
    simp [hc]

theorem data_ne_nil_of_eq (k v : String) : ((k ++ "=" ++ v) : String).data ≠ [] := by
  simp [String.data_append]

theorem pyJoin_data_ne_nil (x : String) (rest : List String) (hx : x.data ≠ []) :
    (pyJoin ";" (x :: rest)).data ≠ [] := by
  cases rest with
  | nil => simpa [pyJoin]
  | cons y r =>
    simp only [pyJoin, String.data_append]
    intro hcontra
    simp at hcontra

theorem split_join (items : List String) (h : items ≠ [])
    (hs : ∀ s ∈ items, ';' ∉ s.data) :
    pySplitChar ';' (pyJoin ";" items).data = items.map String.data := by
  induction items with
  | nil => exact absurd rfl h
  | cons x rest ih =>
    cases rest with
    | nil =>
      simp only [pyJoin, List.map]
      exact pySplitChar_no_sep ';' x.data (hs x (List.mem_cons_self x []))
    | cons y r =>
      have hx : ';' ∉ x.data := hs x (by simp)
      have hrest : ∀ s ∈ y :: r, ';' ∉ s.data := fun s hmem => hs s (by simp [hmem])
      have hdata : (pyJoin ";" (x :: y :: r)).data =
          x.data ++ ';' :: (pyJoin ";" (y :: r)).data := by
        simp [pyJoin, String.data_append]
      rw [hdata, pySplitChar_append_sep ';' x.data _ hx, ih (by simp) hrest]
      simp

theorem parseKV_render (k v : String) (hk : '=' ∉ k.data) (hv : '=' ∉ v.data) :
    parseKV ((k ++ "=" ++ v) : String).data = some (k, v) := by
  have hdata : ((k ++ "=" ++ v) : String).data = k.data ++ '=' :: v.data := by
    simp [String.data_append]
  rw [parseKV, hdata, pySplitChar_append_sep '=' k.data _ hk,
    pySplitChar_no_sep '=' v.data hv]

theorem parseKVs_render (l : List (String × String))
    (hc : ∀ kv ∈ l, '=' ∉ kv.1.data ∧ '=' ∉ kv.2.data) :
    parseKVs ((l.map (fun kv => kv.1 ++ "=" ++ kv.2)).map String.data) = some l := by
  induction l with
  | nil => simp [parseKVs]
  | cons kv rest ih =>
    have h1 := hc kv (by simp)
    simp only [List.map, parseKVs, parseKV_render kv.1 kv.2 h1.1 h1.2,
      ih (fun p hp => hc p (by simp [hp]))]

theorem Env.set_append_of_not_mem (acc : Env) (k v : String)
    (h : ∀ p ∈ acc, p.1 ≠ k) : acc.set k v = acc ++ [(k, v)] := by
  induction acc with
  | nil => simp [Env.set]
  | cons p rest ih =>
    have hp : p.1 ≠ k := h p (by simp)
    simp only [Env.set, hp, if_false]
    rw [ih (fun q hq => h q (by simp [hq]))]
    simp

theorem foldl_set_nodup (l : List (String × String)) :
    ∀ acc : Env, (∀ p ∈ acc, ∀ q ∈ l, p.1 ≠ q.1) → (l.map Prod.fst).Nodup →
    l.foldl (fun acc kv => acc.set kv.1 kv.2) acc = acc ++ l := by
  induction l with
  | nil => intro acc _ _; simp
  | cons kv rest ih =>
    intro acc hsep hnd
    simp only [List.foldl]
    have hset : acc.set kv.1 kv.2 = acc ++ [kv] := by
      rw [Env.set_append_of_not_mem acc kv.1 kv.2 (fun p hp => hsep p hp kv (by simp))]
    rw [hset]
    have hnd' : (rest.map Prod.fst).Nodup := by
      simp only [List.map, List.nodup_cons] at hnd
      exact hnd.2
    have hkv_not : kv.1 ∉ rest.map Prod.fst := by
      simp only [List.map, List.nodup_cons] at hnd
      exact hnd.1
    have hsep' : ∀ p ∈ acc ++ [kv], ∀ q ∈ rest, p.1 ≠ q.1 := by
      intro p hp q hq
      rcases List.mem_append.1 hp with hp | hp
      · exact hsep p hp q (by simp [hq])
      · simp at hp
        subst hp
        intro hcontra
        exact hkv_not (hcontra ▸ List.mem_map_of_mem Prod.fst hq)
    rw [ih (acc ++ [kv]) hsep' hnd']
    simp

theorem dictOfPairs_nodup (l : List (String × String)) (h : (l.map Prod.fst).Nodup) :
    dictOfPairs l = l := by
  rw [dictOfPairs, foldl_set_nodup l [] (by simp) h]
  simp

theorem lookupV_eq_of_perm :
    ∀ {l1 l2 : Env}, l1.Perm l2 → (l1.map Prod.fst).Nodup →
    ∀ k, l1.lookupV k = l2.lookupV k := by
  intro l1 l2 hp
  induction hp with
  | nil => intro _ k; rfl
  | cons x hperm ih =>
    intro hnd k
    simp only [List.map, List.nodup_cons] at hnd
    simp only [Env.lookupV]
    by_cases hx : x.1 = k
    · simp [hx]
    · simp only [hx, if_false]
      exact ih hnd.2 k
  | swap x y l =>
    intro hnd k
    simp only [List.map, List.nodup_cons, List.mem_cons, List.mem_map] at hnd
    have hxy : y.1 ≠ x.1 := by
      intro hcontra
      exact hnd.1 (Or.inl hcontra)
    simp only [Env.lookupV]
    by_cases hy : y.1 = k <;> by_cases hx : x.1 = k <;> simp [hx, hy]
    · exact absurd (hy.trans hx.symm) hxy
  | trans h12 h23 ih12 ih23 =>
    intro hnd k
    have hnd2 : _ := (h12.map Prod.fst).nodup_iff.1 hnd
    rw [ih12 hnd k, ih23 hnd2 k]

theorem virtuals_roundtrip_aux (v : List (String × String))
    (hnd : (v.map Prod.fst).Nodup)
    (hch : ∀ kv ∈ v, ('=' ∉ kv.1.data ∧ ';' ∉ kv.1.data) ∧
      ('=' ∉ kv.2.data ∧ ';' ∉ kv.2.data)) :
    ∃ w, unpack_virtuals_envvar (pack_virtuals_envvar v) = some w
      ∧ ∀ k, Env.lookupV w k = Env.lookupV v k := by
  by_cases hv : v = []
  · subst hv
    refine ⟨[], ?_, fun k => rfl⟩
    simp [pack_virtuals_envvar, unpack_virtuals_envvar, pyJoin, List.insertionSort]
  · have hperm : (List.insertionSort pairLe v).Perm v := List.perm_insertionSort pairLe v
    have hsne : List.insertionSort pairLe v ≠ [] := by
      intro h0
      have hv0 : v.Perm [] := by
        rw [← h0]
        exact hperm.symm
      exact hv hv0.eq_nil
    have hch_s : ∀ kv ∈ List.insertionSort pairLe v,
        ('=' ∉ kv.1.data ∧ ';' ∉ kv.1.data) ∧ ('=' ∉ kv.2.data ∧ ';' ∉ kv.2.data) :=
      fun kv hkv => hch kv (hperm.mem_iff.1 hkv)
    have hnd_s : ((List.insertionSort pairLe v).map Prod.fst).Nodup :=
      ((hperm.map Prod.fst).nodup_iff).2 hnd
    have hrender_no_semi : ∀ t ∈ (List.insertionSort pairLe v).map
        (fun kv => kv.1 ++ "=" ++ kv.2), ';' ∉ t.data := by
      intro t ht
      obtain ⟨kv, hkv, rfl⟩ := List.mem_map.1 ht
      have hc := hch_s kv hkv
      simp [String.data_append, hc.1.2, hc.2.2]
    have hitems_ne : (List.insertionSort pairLe v).map
        (fun kv => kv.1 ++ "=" ++ kv.2) ≠ [] := by
      simp [List.map_eq_nil]
      exact hsne
    have hpack_ne : pack_virtuals_envvar v ≠ "" := by
      rw [pack_virtuals_envvar]
      cases hmap : (List.insertionSort pairLe v).map (fun kv => kv.1 ++ "=" ++ kv.2) with
      | nil => exact absurd hmap hitems_ne
      | cons x rest =>
        obtain ⟨kv, hkv, hx⟩ := List.mem_map.1 (hmap ▸ List.mem_cons_self x rest)
        intro hcontra
        apply pyJoin_data_ne_nil x rest
        · rw [← hx]
          exact data_ne_nil_of_eq kv.1 kv.2
        · rw [hcontra]
    have hsplit := split_join _ hitems_ne hrender_no_semi
    have hparse := parseKVs_render (List.insertionSort pairLe v)
      (fun kv hkv => ⟨(hch_s kv hkv).1.1, (hch_s kv hkv).2.1⟩)
    refine ⟨List.insertionSort pairLe v, ?_, ?_⟩
    · rw [unpack_virtuals_envvar, if_neg hpack_ne, pack_virtuals_envvar, hsplit, hparse]
      simp [dictOfPairs_nodup _ hnd_s]
    · exact lookupV_eq_of_perm hperm hnd_s

/-- Helper: `pack_virtuals_envvar` depends only on the mapping, not on the
order the pairs are listed in (equal dicts give identical strings). -/
theorem pack_perm_invariant (v v' : List (String × String)) (hp : v.Perm v') :
    pack_virtuals_envvar v = pack_virtuals_envvar v' := by
  unfold pack_virtuals_envvar
  congr 1
  congr 1
  exact List.eq_of_perm_of_sorted
    ((List.perm_insertionSort pairLe v).trans
      (hp.trans (List.perm_insertionSort pairLe v').symm))
    (List.sorted_insertionSort pairLe v) (List.sorted_insertionSort pairLe v')

/-- C10: virtuals round-trip.  For every mapping whose keys and values
avoid `=` and `;`, unpacking the packed `HDIST_VIRTUALS` string gives back
the same mapping (same lookups); pack of the empty mapping is `""` and
unpack of `""` is the empty mapping; and pack is deterministic — equal
mappings (permutations of the same bindings) give the identical string,
because the items are sorted before joining. -/
theorem c10_virtuals_roundtrip :
    (∀ v : List (String × String),
      (v.map Prod.fst).Nodup →
      (∀ kv ∈ v, ('=' ∉ kv.1.data ∧ ';' ∉ kv.1.data) ∧
        ('=' ∉ kv.2.data ∧ ';' ∉ kv.2.data)) →
      ∃ w, unpack_virtuals_envvar (pack_virtuals_envvar v) = some w
        ∧ ∀ k, Env.lookupV w k = Env.lookupV v k)
    ∧ pack_virtuals_envvar [] = ""
    ∧ unpack_virtuals_envvar "" = some []
    ∧ (∀ v v' : List (String × String), v.Perm v' →
        pack_virtuals_envvar v = pack_virtuals_envvar v') := by
  refine ⟨virtuals_roundtrip_aux, rfl, rfl, pack_perm_invariant⟩

/-- C10 witness: the round-trip applied to the concrete two-binding mapping
`b -> 2, a -> 1`, and determinism applied to its two orderings. -/
theorem c10_virtuals_roundtrip_witness :
    (∃ w, unpack_virtuals_envvar (pack_virtuals_envvar [("b", "2"), ("a", "1")]) = some w
       ∧ ∀ k, Env.lookupV w k = Env.lookupV [("b", "2"), ("a", "1")] k)
    ∧ pack_virtuals_envvar [("b", "2"), ("a", "1")] =
        pack_virtuals_envvar [("a", "1"), ("b", "2")] := by
  constructor
  · exact c10_virtuals_roundtrip.1 [("b", "2"), ("a", "1")] (by decide) (by decide)
  · exact c10_virtuals_roundtrip.2.2.2 _ _ (List.Perm.swap ("a", "1") ("b", "2") [])

/-! ## The log multiplexer's line assembly (lines 734-740 and 779-806) -/

/-- The first line of a byte string together with its line ending, and the
remainder.  Python 2 `str.splitlines` recognizes the boundaries `\n`,
`\r\n` and `\r`. -/
def firstLine : LStr → LStr × LStr
  | [] => ([], [])
  | '\n' :: r => (['\n'], r)
  | '\r' :: '\n' :: r => (['\r', '\n'], r)
  | '\r' :: r => (['\r'], r)
  | c :: r => (c :: (firstLine r).1, (firstLine r).2)

theorem firstLine_rest_length : ∀ s : LStr, s ≠ [] → (firstLine s).2.length < s.length := by
  intro s
  induction s using firstLine.induct with
  | case1 => intro h; exact absurd rfl h
  | case2 r => intro _; simp [firstLine]
  | case3 r => intro _; simp [firstLine]; omega
  | case4 r hside => intro _; simp [firstLine]
  | case5 c r h1 h2 h3 ih =>
    intro _
    by_cases hr : r = []
    · subst hr
      simp [firstLine]
    · have := ih hr
      simp only [firstLine]
      simp
      omega

/-- Python 2 `str.splitlines(True)`: split at `\n`, `\r\n` and `\r`
boundaries, keeping the line endings. -/
def splitlines (s : LStr) : List LStr :=
  if h : s = [] then [] else (firstLine s).1 :: splitlines (firstLine s).2
termination_by s.length
decreasing_by exact firstLine_rest_length s h

/-- Strip one trailing `\n` — the `if line[-1] == '\n': line = line[:-1]`
of lines 799-800 (a `\r` from `\r\n`, or a bare `\r` ending, stays in the
record). -/
def stripNL (l : LStr) : LStr := if l.getLast? = some '\n' then l.dropLast else l

/-- One `POLLIN` handling step for a non-captured fd (lines 786-801):
append the read bytes to the fd's buffer, split into lines keeping the
endings, keep a trailing piece not ending in `\n` as the new buffer, and
emit every other line with a trailing `\n` stripped.  (The `none` arm is
Python's `IndexError` on `lines[-1]` when buffer and chunk are both empty;
the poll loop guarantees the chunk is nonempty, `assert new_bytes != ''`.) -/
def feed (buffer chunk : LStr) : LStr × List LStr :=
  match (splitlines (buffer ++ chunk)).getLast? with
  | none => ([], [])
  | some l =>
    if l.getLast? = some '\n' then ([], (splitlines (buffer ++ chunk)).map stripNL)
    else (l, ((splitlines (buffer ++ chunk)).dropLast).map stripNL)

/-- `flush_buffer` (lines 734-740): a nonempty residual buffer is emitted
as one record, verbatim. -/
def flush (buffer : LStr) : List LStr := if buffer = [] then [] else [buffer]

/-- Feed a sequence of read chunks through the per-fd line assembly. -/
def feedAll (buffer : LStr) : List LStr → LStr × List LStr
  | [] => (buffer, [])
  | c :: cs =>
    let step := feed buffer c
    let rest := feedAll step.1 cs
    (rest.1, step.2 ++ rest.2)

/-- All records a stream produces: those emitted while reading plus the
final `flush_buffer` of the residue (lines 803-804). -/
def recordsOf (chunks : List LStr) : List LStr :=
  (feedAll [] chunks).2 ++ flush (feedAll [] chunks).1

/-- The per-fd buffer map of the multiplexer (the `buffers` dict). -/
abbrev FdBuffers := List (Nat × LStr)

/-- `buffers[fd]`. -/
def lookupFd : FdBuffers → Nat → LStr
  | [], _ => []
  | (f, b) :: rest, fd => if f = fd then b else lookupFd rest fd

/-- `buffers[fd] = b`. -/
def setFd : FdBuffers → Nat → LStr → FdBuffers
  | [], fd, b => [(fd, b)]
  | (f, b0) :: rest, fd, b =>
    if f = fd then (f, b) :: rest else (f, b0) :: setFd rest fd b

/-- A `POLLIN` event on `fd`: only that fd's buffer is read and updated,
and every emitted record carries that fd's identity (its logger). -/
def handle_pollin (bufs : FdBuffers) (fd : Nat) (chunk : LStr) :
    FdBuffers × List (Nat × LStr) :=
  ((setFd bufs fd (feed (lookupFd bufs fd) chunk).1),
    (feed (lookupFd bufs fd) chunk).2.map (fun r => (fd, r)))

theorem splitlines_eq (s : LStr) (h : s ≠ []) :
    splitlines s = (firstLine s).1 :: splitlines (firstLine s).2 := by
  rw [splitlines]
  simp [h]

theorem splitlines_nil : splitlines [] = [] := by
  rw [splitlines]
  simp

theorem splitlines_ne_nil (s : LStr) (h : s ≠ []) : splitlines s ≠ [] := by
  rw [splitlines_eq s h]
  simp

theorem firstLine_decomp : ∀ s : LStr, (firstLine s).1 ++ (firstLine s).2 = s := by
  intro s
  induction s using firstLine.induct with
  | case1 => rfl
  | case2 r => simp [firstLine]
  | case3 r => simp [firstLine]
  | case4 r hside => simp [firstLine]
  | case5 c r h1 h2 h3 ih =>
    simp only [firstLine]
    simp only [List.cons_append, ih]

theorem firstLine_ne_nil : ∀ s : LStr, s ≠ [] → (firstLine s).1 ≠ [] := by
  intro s
  induction s using firstLine.induct with
  | case1 => intro h; exact absurd rfl h
  | case2 r => intro _; simp [firstLine]
  | case3 r => intro _; simp [firstLine]
  | case4 r hside => intro _; simp [firstLine]
  | case5 c r h1 h2 h3 ih => intro _; simp [firstLine]

theorem firstLine_append_of_rest_ne : ∀ (s : LStr) (t : LStr), (firstLine s).2 ≠ [] →
    firstLine (s ++ t) = ((firstLine s).1, (firstLine s).2 ++ t) := by
  intro s
  induction s using firstLine.induct with
  | case1 => intro t h; simp [firstLine] at h
  | case2 r => intro t h; simp [firstLine]
  | case3 r => intro t h; simp [firstLine]
  | case4 r hside =>
    intro t h
    simp only [firstLine] at h ⊢
    cases r with
    | nil => exact absurd rfl h
    | cons c' r' =>
      have hc' : c' ≠ '\n' := fun hc => hside r' (by rw [hc])
      have hside2 : ∀ r_1 : List Char, c' :: (r' ++ t) = '\n' :: r_1 → False := by
        intro r1 hcontra
        injection hcontra with h1 _
        exact hc' h1
      simp [firstLine, hside2]
  | case5 c r h1 h2 h3 ih =>
    intro t h
    simp only [firstLine] at h ⊢
    have hr : r ≠ [] := by
      intro hr0
      subst hr0
      simp [firstLine] at h
    have := ih t h
    have h1' : (c = '\n' → False) := h1
    have h3' : (c = '\x0d' → False) := h3
    have h2' : ∀ r_1 : List Char, c = '\x0d' → r ++ t = '\n' :: r_1 → False := by
      intro r1 hc _
      exact h3 hc
    simp only [List.cons_append, firstLine, this, h1', h2', h3']

theorem getLast?_cons_ne_nil {α : Type} (c : α) (l : List α) (h : l ≠ []) :
    (c :: l).getLast? = l.getLast? := by
  cases l with
  | nil => exact absurd rfl h
  | cons a r => simp [List.getLast?_cons_cons]

theorem firstLine_append_of_newline : ∀ (s : LStr) (t : LStr), (firstLine s).2 = [] →
    (firstLine s).1.getLast? = some '\n' →
    firstLine (s ++ t) = ((firstLine s).1, t) := by
  intro s
  induction s using firstLine.induct with
  | case1 => intro t h2 h1; simp [firstLine] at h1
  | case2 r =>
    intro t h2 h1
    simp only [firstLine] at h2
    subst h2
    simp [firstLine]
  | case3 r =>
    intro t h2 h1
    simp only [firstLine] at h2
    subst h2
    simp [firstLine]
  | case4 r hside =>
    intro t h2 h1
    simp [firstLine] at h1
  | case5 c r h1c h2c h3c ih =>
    intro t h2 h1
    simp only [firstLine] at h2 h1
    have hr : r ≠ [] := by
      intro hr0
      subst hr0
      simp [firstLine] at h1
      exact h1c h1
    have hfl1 : (firstLine r).1 ≠ [] := firstLine_ne_nil r hr
    have h1r : (firstLine r).1.getLast? = some '\n' := by
      rwa [getLast?_cons_ne_nil c _ hfl1] at h1
    have := ih t h2 h1r
    have h2' : ∀ r_1 : List Char, c = '\x0d' → r ++ t = '\n' :: r_1 → False := by
      intro r1 hc _
      exact h3c hc
    simp only [List.cons_append, firstLine, this, h1c, h2', h3c]

theorem dropLast_cons_ne_nil {α : Type} (c : α) (l : List α) (h : l ≠ []) :
    (c :: l).dropLast = c :: l.dropLast := by
  cases l with
  | nil => exact absurd rfl h
  | cons a r => rfl

theorem splitlines_append_newline : ∀ (n : Nat) (s t : LStr), s.length ≤ n → s ≠ [] →
    ∀ l, (splitlines s).getLast? = some l → l.getLast? = some '\n' →
    splitlines (s ++ t) = splitlines s ++ splitlines t := by
  intro n
  induction n with
  | zero =>
    intro s t hle hne
    cases s with
    | nil => exact absurd rfl hne
    | cons a r => simp at hle
  | succ n ih =>
    intro s t hle hne l hlast hnl
    have hst : s ++ t ≠ [] := by simp [hne]
    by_cases hrest : (firstLine s).2 = []
    · rw [splitlines_eq s hne, hrest, splitlines_nil] at hlast
      simp only [List.getLast?] at hlast
      have hl : l = (firstLine s).1 := by simpa using hlast.symm
      subst hl
      rw [splitlines_eq (s ++ t) hst, firstLine_append_of_newline s t hrest hnl,
        splitlines_eq s hne, hrest, splitlines_nil]
      simp
    · have hfa := firstLine_append_of_rest_ne s t hrest
      have hsneq := splitlines_eq s hne
      have hsplitrest := splitlines_ne_nil _ hrest
      have hlast' : (splitlines (firstLine s).2).getLast? = some l := by
        rw [hsneq, getLast?_cons_ne_nil _ _ hsplitrest] at hlast
        exact hlast
      have hlen : (firstLine s).2.length ≤ n := by
        have := firstLine_rest_length s hne
        omega
      have ihr := ih (firstLine s).2 t hlen hrest l hlast' hnl
      rw [splitlines_eq (s ++ t) hst, hfa, hsneq]
      simp only [ihr]
      simp

theorem splitlines_append_noline : ∀ (n : Nat) (s t : LStr), s.length ≤ n → s ≠ [] →
    ∀ l, (splitlines s).getLast? = some l → l.getLast? ≠ some '\n' →
    splitlines (s ++ t) = (splitlines s).dropLast ++ splitlines (l ++ t) := by
  intro n
  induction n with
  | zero =>
    intro s t hle hne
    cases s with
    | nil => exact absurd rfl hne
    | cons a r => simp at hle
  | succ n ih =>
    intro s t hle hne l hlast hnl
    have hst : s ++ t ≠ [] := by simp [hne]
    by_cases hrest : (firstLine s).2 = []
    · rw [splitlines_eq s hne, hrest, splitlines_nil] at hlast
      simp only [List.getLast?] at hlast
      have hl : l = (firstLine s).1 := by simpa using hlast.symm
      subst hl
      have hseq : s = (firstLine s).1 := by
        have := firstLine_decomp s
        rw [hrest] at this
        simpa using this.symm
      rw [splitlines_eq s hne, hrest, splitlines_nil]
      simp only [List.dropLast_single, List.nil_append]
      rw [← hseq]
    · have hfa := firstLine_append_of_rest_ne s t hrest
      have hsneq := splitlines_eq s hne
      have hsplitrest := splitlines_ne_nil _ hrest
      have hlast' : (splitlines (firstLine s).2).getLast? = some l := by
        rw [hsneq, getLast?_cons_ne_nil _ _ hsplitrest] at hlast
        exact hlast
      have hlen : (firstLine s).2.length ≤ n := by
        have := firstLine_rest_length s hne
        omega
      have ihr := ih (firstLine s).2 t hlen hrest l hlast' hnl
      rw [splitlines_eq (s ++ t) hst, hfa, hsneq,
        dropLast_cons_ne_nil _ _ hsplitrest]
      simp only [ihr]
      simp

theorem splitlines_last_single : ∀ (n : Nat) (s : LStr), s.length ≤ n → s ≠ [] →
    ∀ l, (splitlines s).getLast? = some l → l.getLast? ≠ some '\n' →
    splitlines l = [l] := by
  intro n
  induction n with
  | zero =>
    intro s hle hne
    cases s with
    | nil => exact absurd rfl hne
    | cons a r => simp at hle
  | succ n ih =>
    intro s hle hne l hlast hnl
    by_cases hrest : (firstLine s).2 = []
    · rw [splitlines_eq s hne, hrest, splitlines_nil] at hlast
      simp only [List.getLast?] at hlast
      have hl : l = (firstLine s).1 := by simpa using hlast.symm
      subst hl
      have hseq : s = (firstLine s).1 := by
        have := firstLine_decomp s
        rw [hrest] at this
        simpa using this.symm
      rw [← hseq, splitlines_eq s hne, hrest, splitlines_nil, ← hseq]
    · have hsplitrest := splitlines_ne_nil _ hrest
      have hlast' : (splitlines (firstLine s).2).getLast? = some l := by
        rw [splitlines_eq s hne, getLast?_cons_ne_nil _ _ hsplitrest] at hlast
        exact hlast
      have hlen : (firstLine s).2.length ≤ n := by
        have := firstLine_rest_length s hne
        omega
      exact ih (firstLine s).2 hlen hrest l hlast' hnl

theorem feedAll_records : ∀ (cs : List LStr) (b : LStr),
    (b = [] ∨ (splitlines b = [b] ∧ b.getLast? ≠ some '\n')) →
    (∀ c ∈ cs, c ≠ []) →
    (feedAll b cs).2 ++ flush (feedAll b cs).1 = (splitlines (b ++ cs.join)).map stripNL := by
  intro cs
  induction cs with
  | nil =>
    intro b hP hc
    simp only [feedAll, List.join, List.append_nil, flush]
    rcases hP with rfl | ⟨hsb, hnb⟩
    · simp [splitlines_nil]
    · by_cases hb : b = []
      · subst hb
        simp [splitlines_nil]
      · simp [hb, hsb, stripNL, hnb]
  | cons c cs' ih =>
    intro b hP hc
    have hcne : c ≠ [] := hc c (by simp)
    have hbc : b ++ c ≠ [] := by
      intro h0
      exact hcne (List.append_eq_nil.1 h0).2
    obtain ⟨l, hl⟩ : ∃ l, (splitlines (b ++ c)).getLast? = some l := by
      have := splitlines_ne_nil _ hbc
      cases hg : (splitlines (b ++ c)).getLast? with
      | none => exact absurd (List.getLast?_eq_none_iff.1 hg) this
      | some a => exact ⟨a, rfl⟩
    have hassoc : b ++ (c :: cs').join = (b ++ c) ++ cs'.join := by
      simp [List.join]
    by_cases hnl : l.getLast? = some '\n'
    · have hfeed : feed b c = ([], (splitlines (b ++ c)).map stripNL) := by
        rw [feed, hl]
        exact if_pos hnl
      have ihr := ih [] (Or.inl rfl) (fun x hx => hc x (by simp [hx]))
      simp only [feedAll, hfeed]
      simp only [List.nil_append] at ihr
      rw [hassoc, splitlines_append_newline (b ++ c).length (b ++ c) cs'.join le_rfl hbc
        l hl hnl]
      simp only [List.map_append]
      rw [← ihr]
      simp
    · have hfeed : feed b c = (l, ((splitlines (b ++ c)).dropLast).map stripNL) := by
        rw [feed, hl]
        exact if_neg hnl
      have hPl : l = [] ∨ (splitlines l = [l] ∧ l.getLast? ≠ some '\n') :=
        Or.inr ⟨splitlines_last_single (b ++ c).length (b ++ c) le_rfl hbc l hl hnl, hnl⟩
      have ihr := ih l hPl (fun x hx => hc x (by simp [hx]))
      simp only [feedAll, hfeed]
      rw [hassoc, splitlines_append_noline (b ++ c).length (b ++ c) cs'.join le_rfl hbc
        l hl hnl]
      simp only [List.map_append]
      rw [← ihr]
      simp

/-- Helper: updating one fd's buffer leaves every other fd's buffer
untouched. -/
theorem lookupFd_setFd_ne (bufs : FdBuffers) (fd fd' : Nat) (b : LStr) (h : fd' ≠ fd) :
    lookupFd (setFd bufs fd b) fd' = lookupFd bufs fd' := by
  induction bufs with
  | nil =>
    have hne : fd ≠ fd' := fun hc => h hc.symm
    simp [setFd, lookupFd, hne]
  | cons p rest ih =>
    obtain ⟨f, b0⟩ := p
    by_cases hf : f = fd
    · subst hf
      have hne : f ≠ fd' := fun hc => h hc.symm
      simp [setFd, lookupFd, hne]
    · simp only [setFd, hf, if_false]
      by_cases hf' : f = fd' <;> simp [lookupFd, hf', ih]

/-- C8 (amended): line framing of the log multiplexer.  (1) For every
non-captured stream, whatever way the byte stream is split into (nonempty)
reads, the emitted records are exactly Python `splitlines` of the whole
stream — i.e. the stream split at `\n`, `\r\n` *and* `\r` boundaries — each
record with only a trailing `\n` removed (a `\r` of `\r\n`, or a bare-`\r`
ending, stays in the record), the trailing unterminated fragment being
emitted verbatim at flush.  (2)+(3) A read event on one fd updates only
that fd's buffer and attributes every emitted record to that fd, so bytes
never cross between fds. -/
theorem c8_line_framing_amended :
    (∀ chunks : List LStr, (∀ c ∈ chunks, c ≠ []) →
      recordsOf chunks = (splitlines chunks.join).map stripNL)
    ∧ (∀ (bufs : FdBuffers) (fd fd' : Nat) (chunk : LStr), fd' ≠ fd →
        lookupFd (handle_pollin bufs fd chunk).1 fd' = lookupFd bufs fd')
    ∧ (∀ (bufs : FdBuffers) (fd : Nat) (chunk : LStr) (p : Nat × LStr),
        p ∈ (handle_pollin bufs fd chunk).2 → p.1 = fd) := by
  refine ⟨?_, ?_, ?_⟩
  · intro chunks hc
    have h := feedAll_records chunks [] (Or.inl rfl) hc
    simpa [recordsOf] using h
  · intro bufs fd fd' chunk hne
    simp only [handle_pollin]
    exact lookupFd_setFd_ne bufs fd fd' _ hne
  · intro bufs fd chunk p hp
    simp only [handle_pollin] at hp
    obtain ⟨r, -, rfl⟩ := List.mem_map.1 hp
    rfl

/-- C8 counterexample: the byte stream `a\rb\n` contains exactly one
maximal `\n`-terminated byte sequence, `a\rb`, so the claim demands exactly
one record `a\rb`; the code's `splitlines`-based framing also breaks at the
`\r` and emits TWO records, `a\r` (carriage return retained) and `b`. -/
theorem c8_line_framing_counterexample :
    recordsOf [['a', '\r', 'b', '\n']] = [['a', '\r'], ['b']]
    ∧ [['a', '\r'], ['b']] ≠ [['a', '\r', 'b']] := by
  constructor
  · simp [recordsOf, feedAll, feed, splitlines, firstLine, stripNL, flush]
  · decide

/-- C8 witness: the amended theorem applied to the chunking
`["ab", "\nc"]` (the newline arriving in the second read) and to a
`POLLIN` on fd 5 with another fd 3 registered. -/
theorem c8_line_framing_amended_witness :
    recordsOf [['a', 'b'], ['\n', 'c']] = [['a', 'b'], ['c']]
    ∧ lookupFd (handle_pollin [(3, ['x'])] 5 ['y']).1 3 = ['x'] := by
  constructor
  · have h := c8_line_framing_amended.1 [['a', 'b'], ['\n', 'c']] (by decide)
    rw [h]
    simp [splitlines, firstLine, stripNL]
  · have h := c8_line_framing_amended.2.1 [(3, ['x'])] 5 3 ['y'] (by decide)
    rw [h]
    decide
